import Mathlib

/-!
Verification development for the dash2hls repository: a DASH to HLS
conversion service.  The Lean definitions below are shallow embeddings of
the Python source modules `decryptor.py`, `server.py`, `session.py`,
`hls_writer.py` / `hls_generator.py` and `dash_parser.py`.  Machine
integers are modelled as `Int` / `Nat` (Python integers are unbounded),
floats as `Rat`, byte strings by their length where only the length is
inspected, and Python `dict`s as insertion-ordered association lists.
-/

namespace Dash2hls

/-- Truthiness of an optional Python string: `None` and `""` are falsy. -/
def pyTruthyStr : Option String → Bool
  | none => false
  | some s => s ≠ ""

namespace Decryptor

/-- The KID to key map of `Mp4DecryptBinary`, an insertion-ordered
association list mirroring a Python `dict`. -/
abbrev KeyMap := List (String × String)

/-- `Mp4DecryptBinary._normalize_kid`: drop dashes and lowercase
(`kid.replace("-", "").lower()`), written out on the character list so it
evaluates by kernel reduction. -/
def normalizeKid (kid : String) : String :=
  String.mk ((kid.data.filter (fun c => c ≠ '-')).map Char.toLower)

/-- First value bound to `k` in the map (Python `self.key_map[k]`). -/
def KeyMap.find : KeyMap → String → Option String
  | [], _ => none
  | (k, v) :: rest, key => if k = key then some v else KeyMap.find rest key

/-- Errors raised by `Mp4DecryptBinary.decrypt_segment` before the external
tool is invoked. -/
inductive DecErr
  | noData
  | tooSmall (n : Nat)
  | noKeyForKid (kid : String)
deriving DecidableEq, Repr

/-- Embedding of the validation and key-selection part of
`Mp4DecryptBinary.decrypt_segment`.  `dataLen` is the length of the
payload; on success the result is the `(kid, key)` pair handed to the
external `mp4decrypt` subprocess. -/
def decryptKeySelection (keyMap : KeyMap) (dataLen : Nat) (kid? : Option String) :
    Except DecErr (String × String) :=
  if dataLen = 0 then .error .noData
  else if dataLen < 8 then .error (.tooSmall dataLen)
  else
    let firstEntry := keyMap.headI
    if pyTruthyStr kid? then
      let kid := normalizeKid (kid?.getD "")
      match keyMap.find kid with
      | some key => .ok (kid, key)
      | none =>
          if keyMap.length = 1 then .ok firstEntry
          else .error (.noKeyForKid kid)
    else .ok firstEntry

end Decryptor

namespace Server

/-- A filesystem path as its list of components below the root. -/
abbrev PathParts := List String

/-- `pathlib` parsing of a path string: empty components (from repeated
slashes) and `.` components are dropped when the `Path` is built. -/
def pathComps (raw : List String) : List String :=
  raw.filter (fun c => c ≠ "" && c ≠ ".")

/-- A requested filename as routed by `/hls/<stream_id>/<path:filename>`:
its raw slash-separated components and whether it is absolute. -/
structure ReqPath where
  isAbs : Bool
  raw : List String
deriving DecidableEq, Repr

/-- One step of `Path.resolve`: `..` pops the last component (a `..` at
the root is discarded), anything else is appended. -/
def resolveStep (acc : PathParts) (c : String) : PathParts :=
  if c = ".." then acc.dropLast else acc ++ [c]

/-- `Path.resolve()` on an absolute path given as components below `/`
(symlink-free filesystem). -/
def resolveParts (p : PathParts) : PathParts :=
  (pathComps p).foldl resolveStep []

/-- `output_path / filename`: a `pathlib` join, where an absolute right
operand replaces the left operand entirely. -/
def pyJoin (root : PathParts) (fn : ReqPath) : PathParts :=
  if fn.isAbs then fn.raw else root ++ fn.raw

/-- Embedding of `serve_hls` in `server.py`.  `sessions` is the manager's
stream map projected to output directories, `fs` the set of regular files
present on disk (by resolved path).  The result is `none` for every 404
branch and `some p` when the file at resolved path `p` is served. -/
def serveHls (sessions : List (String × PathParts)) (fs : List PathParts)
    (streamId : String) (fn : ReqPath) : Option PathParts :=
  match (sessions.lookup streamId) with
  | none => none
  | some outputPath =>
      let requested := resolveParts (pyJoin outputPath fn)
      let outputRoot := resolveParts outputPath
      if outputRoot.isPrefixOf requested then
        if requested ∈ fs then some requested else none
      else none

end Server

namespace Session

/-- Per-track segment history of `StreamSession`: the FIFO deque
`_processed_numbers[track]`, the set `_processed_set[track]` and
`_last_sequences[track]`. -/
structure TrackState where
  queue : List Int
  pset : Finset Int
  last : Option Int
deriving DecidableEq

/-- Initial per-track state created by `_ensure_track_state`. -/
def TrackState.init : TrackState :=
  ⟨[], ∅, none⟩

/-- `self._history_limit = self.config.history_size or 128`: a falsy (zero)
configured size falls back to 128. -/
def effectiveHistoryLimit (historySize : Nat) : Nat :=
  if historySize = 0 then 128 else historySize

/-- A segment number passes the freshness test of
`_collect_new_segments`: it is not in the processed set, and when a last
sequence exists it is strictly greater than it. -/
def freshNumber (st : TrackState) (n : Int) : Bool :=
  !(decide (n ∈ st.pset)) &&
    (match st.last with
     | some l => !(decide (n ≤ l))
     | none => true)

/-- `StreamSession._collect_new_segments` projected to segment numbers:
skip null numbers, skip numbers in the processed set, skip numbers not
strictly greater than the last processed sequence. -/
def collectNewNumbers (st : TrackState) (nums : List (Option Int)) : List Int :=
  nums.filterMap fun n? =>
    match n? with
    | none => none
    | some n => if freshNumber st n then some n else none

/-- The eviction loop of `_mark_processed`: while the deque is longer than
the history limit, pop the oldest number and discard it from the set. -/
def trimQueue (limit : Nat) : List Int → Finset Int → List Int × Finset Int
  | [], s => ([], s)
  | oldest :: rest, s =>
      if limit < (oldest :: rest).length then trimQueue limit rest (s.erase oldest)
      else (oldest :: rest, s)

/-- `StreamSession._mark_processed`. -/
def markProcessed (limit : Nat) (st : TrackState) (n : Int) : TrackState :=
  if n ∈ st.pset then st
  else
    let qs := trimQueue limit (st.queue ++ [n]) (insert n st.pset)
    ⟨qs.1, qs.2, st.last⟩

/-- Per-segment bookkeeping of `_process_track_segments`: mark the number
processed, then record it as the track's last sequence. -/
def processSegment (limit : Nat) (st : TrackState) (n : Int) : TrackState :=
  let st' := markProcessed limit st n
  ⟨st'.queue, st'.pset, some n⟩

/-- One poll iteration for a track: diff the fresh segment numbers against
the history, then process them in order.  Returns the new state and the
numbers selected (and hence written) during this poll. -/
def processPoll (limit : Nat) (st : TrackState) (nums : List (Option Int)) :
    TrackState × List Int :=
  let fresh := collectNewNumbers st nums
  (fresh.foldl (processSegment limit) st, fresh)

/-- A finite sequence of polls for one track, accumulating the numbers
written across all polls. -/
def runPolls (limit : Nat) (st : TrackState) :
    List (List (Option Int)) → TrackState × List Int
  | [] => (st, [])
  | p :: rest =>
      let r := processPoll limit st p
      let r' := runPolls limit r.1 rest
      (r'.1, r.2 ++ r'.2)

/-- Invariant tying a track state to the numbers written so far. -/
def TrackInv (limit : Nat) (written : List Int) (st : TrackState) : Prop :=
  st.queue.Nodup ∧
  st.pset = st.queue.toFinset ∧
  st.queue.length ≤ limit ∧
  written.Nodup ∧
  (∀ x ∈ written, ∃ l, st.last = some l ∧ x ≤ l)

end Session

namespace HlsWriter

/-- Lines of a generated playlist (`HlsGenerator.generate_media_playlist`);
the `#EXTINF` line and the URI line that follows it are merged into a
single entry. -/
inductive PlLine
  | extm3u
  | version (n : Nat)
  | targetDur (n : Int)
  | mediaSeq (n : Int)
  | playlistTypeVod
  | mapUri (uri : String)
  | extinf (duration : Rat) (uri : String)
  | endTag
deriving DecidableEq, Repr

/-- Python `int(...)` on a rational: truncation toward zero. -/
def pyInt (q : Rat) : Int :=
  q.num.tdiv (q.den : Int)

/-- `HlsGenerator.generate_media_playlist` as a structured line list. -/
def generateMediaPlaylist (segments : List (Rat × String)) (targetDuration : Rat)
    (sequence : Int) (isLive endListFlag : Bool) : List PlLine :=
  [PlLine.extm3u, PlLine.version 7,
   PlLine.targetDur (pyInt (targetDuration + 1/2)),
   PlLine.mediaSeq sequence] ++
  (if !isLive then [PlLine.playlistTypeVod] else []) ++
  [PlLine.mapUri "init.mp4"] ++
  segments.map (fun s => PlLine.extinf s.1 s.2) ++
  (if endListFlag then [PlLine.endTag] else [])

/-- Number of segment entries (`#EXTINF` lines) in a playlist. -/
def countSegEntries (pl : List PlLine) : Nat :=
  (pl.filter fun l =>
    match l with
    | PlLine.extinf _ _ => true
    | _ => false).length

/-- The values of all `#EXT-X-MEDIA-SEQUENCE` lines of a playlist. -/
def mediaSeqVals (pl : List PlLine) : List Int :=
  pl.filterMap fun l =>
    match l with
    | PlLine.mediaSeq n => some n
    | _ => none

/-- An in-memory window entry of `HLSWriter` (`HLSSegment`). -/
structure HSeg where
  sequence : Int
  duration : Rat
  filename : String
deriving DecidableEq, Repr, Inhabited

/-- Mutable fields of one `HLSWriter`. -/
structure WState where
  isLive : Bool
  windowSize : Nat
  segments : List HSeg
  targetDuration : Rat
  finalized : Bool
deriving DecidableEq, Repr

/-- On-disk artifacts of a track directory: the present segment files and
the contents of `index.m3u8` when it has been written. -/
structure TrackFs where
  segFiles : List String
  playlist : Option (List PlLine)
deriving DecidableEq, Repr

/-- `HLSWriter.__init__`: the effective window size is zero unless live. -/
def initWriter (isLive : Bool) (windowSize : Nat) : WState :=
  ⟨isLive, if isLive then windowSize else 0, [], 1, false⟩

/-- A fresh track directory. -/
def initTrackFs : TrackFs :=
  ⟨[], none⟩

/-- `f"segment_{sequence}.m4s"`. -/
def segFileName (sequence : Int) : String :=
  "segment_" ++ toString sequence ++ ".m4s"

/-- `path.write_bytes`: creates the file when absent. -/
def fsWrite (files : List String) (fn : String) : List String :=
  if fn ∈ files then files else files ++ [fn]

/-- `if old_path.exists(): old_path.unlink()`. -/
def fsUnlink (files : List String) (fn : String) : List String :=
  files.erase fn

/-- The eviction loop of `add_segment`: while the window exceeds
`window_size`, pop the oldest entry and delete its file. -/
def trimWindow (w : Nat) : List HSeg → List String → List HSeg × List String
  | [], files => ([], files)
  | s :: rest, files =>
      if w < (s :: rest).length then trimWindow w rest (fsUnlink files s.filename)
      else (s :: rest, files)

/-- The playlist content `_write_playlist` produces for a writer state. -/
def playlistOf (st : WState) : List PlLine :=
  generateMediaPlaylist (st.segments.map fun s => (s.duration, s.filename))
    st.targetDuration st.segments.headI.sequence st.isLive
    (st.finalized && !st.isLive)

/-- `HLSWriter._write_playlist`: a no-op when the window is empty,
otherwise rewrites `index.m3u8`. -/
def writePlaylist (st : WState) (fs : TrackFs) : TrackFs :=
  if st.segments = [] then fs
  else ⟨fs.segFiles, some (playlistOf st)⟩

/-- `HLSWriter.add_segment`. -/
def addSegment (st : WState) (fs : TrackFs) (sequence : Int) (duration : Rat) :
    WState × TrackFs :=
  let fn := segFileName sequence
  let files1 := fsWrite fs.segFiles fn
  let segs1 := st.segments ++ [⟨sequence, duration, fn⟩]
  let td := max st.targetDuration duration
  let trimmed :=
    if st.windowSize ≠ 0 then trimWindow st.windowSize segs1 files1
    else (segs1, files1)
  let st' : WState := ⟨st.isLive, st.windowSize, trimmed.1, td, st.finalized⟩
  let fs' : TrackFs := ⟨trimmed.2, fs.playlist⟩
  (st', writePlaylist st' fs')

/-- `HLSWriter.finalize`. -/
def finalizeTrack (st : WState) (fs : TrackFs) : WState × TrackFs :=
  let st' : WState := ⟨st.isLive, st.windowSize, st.segments, st.targetDuration, true⟩
  (st', writePlaylist st' fs)

/-- Apply a sequence of `add_segment` calls. -/
def runAdds (p : WState × TrackFs) : List (Int × Rat) → WState × TrackFs
  | [] => p
  | c :: rest => runAdds (addSegment p.1 p.2 c.1 c.2) rest

/-- The window entry created for the `add_segment` call `c`. -/
def mkSeg (c : Int × Rat) : HSeg :=
  ⟨c.1, c.2, segFileName c.1⟩

/-- A live writer over a fresh track directory, after a sequence of
`add_segment` calls. -/
def runLive (w : Nat) (calls : List (Int × Rat)) : WState × TrackFs :=
  runAdds (initWriter true w, initTrackFs) calls

/-- Invariant tying a live writer and its track directory to the
`add_segment` calls applied so far. -/
def WriterInv (w : Nat) (added : List (Int × Rat)) (p : WState × TrackFs) : Prop :=
  p.1.isLive = true ∧
  p.1.windowSize = w ∧
  p.1.segments = (added.map mkSeg).drop (added.length - w) ∧
  p.1.segments.length ≤ w ∧
  p.2.segFiles = p.1.segments.map HSeg.filename ∧
  (added = [] → p.2.playlist = none) ∧
  (added ≠ [] → p.1.segments ≠ [] ∧ p.2.playlist = some (playlistOf p.1))

end HlsWriter

namespace Session

/-- `StreamStatus` from `models.py`. -/
inductive StreamStatus
  | initializing
  | starting
  | running
  | completed
  | stopped
  | error
deriving DecidableEq, Repr

/-- Per-track completion test of the VOD check in `_run_loop`: the track
counts as complete when it is absent, lists no segments, its last listed
number is null, or the last processed sequence is at least the last
listed number. -/
def trackComplete (rep : Option (List (Option Int))) (lastSeq : Option Int) : Bool :=
  match rep with
  | none => true
  | some segs =>
      if segs.isEmpty then true
      else
        match segs.getLastD none with
        | none => true
        | some n =>
            match lastSeq with
            | some l => decide (n ≤ l)
            | none => false

/-- The session's `MultiVariantHLSWriter`, projected to its `video` and
`audio` variants. -/
structure MVState where
  video : Option (HlsWriter.WState × HlsWriter.TrackFs)
  audio : Option (HlsWriter.WState × HlsWriter.TrackFs)

/-- `MultiVariantHLSWriter.finalize`: finalize every variant's writer. -/
def finalizeMV (mv : MVState) : MVState :=
  ⟨mv.video.map (fun p => HlsWriter.finalizeTrack p.1 p.2),
   mv.audio.map (fun p => HlsWriter.finalizeTrack p.1 p.2)⟩

/-- The VOD completion check at the end of a `_run_loop` iteration.  The
`Bool` in the result records whether the loop returned. -/
def vodCompletionStep (isLive : Bool) (videoRep audioRep : Option (List (Option Int)))
    (videoLast audioLast : Option Int) (status : StreamStatus) (mv : MVState) :
    StreamStatus × MVState × Bool :=
  if !isLive && trackComplete videoRep videoLast && trackComplete audioRep audioLast then
    (StreamStatus.completed, finalizeMV mv, true)
  else (status, mv, false)

end Session

namespace DashParser

/-- The sentinel byte `\x00` that `_fill_template` substitutes for `$$`. -/
def nulChar : Char :=
  Char.ofNat 0

/-- Python `str.replace` on character lists: leftmost, non-overlapping
replacement of the pattern `p0 :: ps` by `rep`. -/
def pyReplace (p0 : Char) (ps : List Char) (rep : List Char) : List Char → List Char
  | [] => []
  | c :: cs =>
      if (p0 :: ps).isPrefixOf (c :: cs) then
        rep ++ pyReplace p0 ps rep (cs.drop ps.length)
      else
        c :: pyReplace p0 ps rep cs
termination_by l => l.length
decreasing_by
  all_goals simp only [List.length_drop, List.length_cons]
  all_goals omega

/-- A character of the regex class `\w` (ASCII). -/
def isWordChar (c : Char) : Bool :=
  c.isAlphanum || c = '_'

/-- A conversion character of the format-spec pattern `[diouxX]`. -/
def isFmtChar (c : Char) : Bool :=
  c = 'd' || c = 'i' || c = 'o' || c = 'u' || c = 'x' || c = 'X'

/-- Match the tail of the pattern `\$(\w+)%(0?)(\d*)([diouxX])\$` against
`cs` (the characters after a `$`).  On success, return the number of
characters of `cs` consumed, the variable name, the zero flag and the
width digits. -/
def tryFormat (cs : List Char) : Option (Nat × List Char × Bool × List Char) :=
  let name := cs.takeWhile isWordChar
  if name.isEmpty then none
  else
    match cs.drop name.length with
    | '%' :: r1 =>
        let zf : Bool := match r1 with
          | '0' :: _ => true
          | _ => false
        let r2 := if zf then r1.drop 1 else r1
        let digits := r2.takeWhile Char.isDigit
        match r2.drop digits.length with
        | f :: '$' :: _ =>
            if isFmtChar f then
              some (name.length + 1 + (if zf then 1 else 0) + digits.length + 2,
                name, zf, digits)
            else none
        | _ => none
    | _ => none

/-- `int(width_str)` on a digit run. -/
def digitsToNat (ds : List Char) : Nat :=
  ds.foldl (fun a c => a * 10 + (c.toNat - '0'.toNat)) 0

/-- Python `str.rjust`. -/
def rjust (s : List Char) (width : Nat) (pad : Char) : List Char :=
  List.replicate (width - s.length) pad ++ s

/-- The replacement function passed to `re.sub` in `_fill_template`:
`RepresentationID` is never padded, unknown variables reproduce the match
verbatim, and known variables are zero- or space-padded to the width. -/
def fmtReplacement (repId : List Char) (number time bandwidth : Int)
    (name : List Char) (zf : Bool) (digits : List Char)
    (matched : List Char) : List Char :=
  if name = "RepresentationID".data then repId
  else
    let v? : Option Int :=
      if name = "Number".data then some number
      else if name = "Time".data then some time
      else if name = "Bandwidth".data then some bandwidth
      else none
    match v? with
    | none => matched
    | some v =>
        let s := (toString v).data
        let width := digitsToNat digits
        if width > 0 then rjust s width (if zf then '0' else ' ') else s

/-- `re.sub(r"\$(\w+)%(0?)(\d*)([diouxX])\$", replace, result)`: scan left
to right, substituting each match. -/
def formatSub (repId : List Char) (number time bandwidth : Int) :
    List Char → List Char
  | [] => []
  | c :: cs =>
      if c = '$' then
        match tryFormat cs with
        | some (k, name, zf, digits) =>
            fmtReplacement repId number time bandwidth name zf digits
                ('$' :: cs.take k)
              ++ formatSub repId number time bandwidth (cs.drop k)
        | none => c :: formatSub repId number time bandwidth cs
      else c :: formatSub repId number time bandwidth cs
termination_by l => l.length
decreasing_by
  all_goals simp only [List.length_drop, List.length_cons]
  all_goals omega

/-- `DashParser._fill_template` on character lists: substitute `$$` by a
sentinel, then the bare variables, then format specs, then restore the
sentinel as `$`. -/
def fillTemplate (tmpl repId : List Char) (number time bandwidth : Int) :
    List Char :=
  if tmpl.isEmpty then []
  else
    let r1 := pyReplace '$' ['$'] [nulChar] tmpl
    let r2 := pyReplace '$' "RepresentationID$".data repId r1
    let r3 := pyReplace '$' "Number$".data (toString number).data r2
    let r4 := pyReplace '$' "Time$".data (toString time).data r3
    let r5 := pyReplace '$' "Bandwidth$".data (toString bandwidth).data r4
    let r6 := formatSub repId number time bandwidth r5
    pyReplace nulChar [] "$".data r6

/-- `_fill_template` on strings. -/
def fillTemplateS (tmpl repId : String) (number time bandwidth : Int) : String :=
  String.mk (fillTemplate tmpl.data repId.data number time bandwidth)

/-- One `<S>` element of a `SegmentTimeline`, with its `t`/`d`/`r`
attributes parsed. -/
structure SElem where
  t : Option Int
  d : Option Int
  r : Option Int
deriving DecidableEq, Repr

/-- `_ResolvedSegmentTemplate`. -/
structure RTemplate where
  targetInit : Option String
  media : Option String
  timescale : Int
  duration : Option Int
  startNumber : Int
  presentationTimeOffset : Int
  timeline : Option (List SElem)
deriving DecidableEq, Repr

/-- `DashSegment`. -/
structure DashSegment where
  url : String
  duration : Rat
  number : Int
deriving DecidableEq, Repr

/-- `DashParser.MAX_TIMELINE_REPEAT`. -/
def maxTimelineRepeat : Int := 30

/-- `DashParser.FALLBACK_SEGMENT_COUNT`. -/
def fallbackSegmentCount : Nat := 200

/-- Loop state of `_parse_segment_timeline`: the next sequence number, the
running presentation time and the last observed duration. -/
structure TLState where
  number : Int
  currentTime : Int
  lastDuration : Option Int
deriving DecidableEq, Repr

/-- The inner emission loop `for _ in range(repeat + 1)` of
`_parse_segment_timeline`: emit up to `k` segments, advancing the number
by one and the time by `durationUnits` per segment, breaking when the
filled media path is empty.  Returns the final number, the final time and
the emitted segments. -/
def emitLoop (resolveUrl : String → String → String) (media repId : String)
    (bandwidth : Int) (baseUrl : String) (timescale : Int) (pto : Int)
    (durationUnits : Int) : Nat → Int → Int → Int × Int × List DashSegment
  | 0, number, currentTime => (number, currentTime, [])
  | k + 1, number, currentTime =>
      let mediaPath := fillTemplateS media repId number (currentTime - pto) bandwidth
      if mediaPath = "" then (number, currentTime, [])
      else
        let seg : DashSegment :=
          ⟨resolveUrl baseUrl mediaPath,
            (durationUnits : Rat) / (timescale : Rat), number⟩
        let res := emitLoop resolveUrl media repId bandwidth baseUrl timescale pto
          durationUnits k (number + 1) (currentTime + durationUnits)
        (res.1, res.2.1, seg :: res.2.2)

/-- Processing of a single `<S>` element in `_parse_segment_timeline`. -/
def processS (resolveUrl : String → String → String) (tmpl : RTemplate)
    (repId : String) (bandwidth : Int) (baseUrl : String) (isLive : Bool)
    (st : TLState) (s : SElem) : TLState × List DashSegment :=
  let ts := if tmpl.timescale = 0 then 1 else tmpl.timescale
  let ct := match s.t with
    | some tv => tv
    | none => st.currentTime
  let dInfo : Option (Int × Option Int) :=
    match s.d with
    | some dv => some (dv, if dv > 0 then some dv else st.lastDuration)
    | none =>
        match st.lastDuration with
        | some ld => if ld ≠ 0 then some (ld, st.lastDuration) else none
        | none => none
  match dInfo with
  | none => (⟨st.number, ct, st.lastDuration⟩, [])
  | some (du, ld) =>
      if du ≤ 0 then (⟨st.number, ct, ld⟩, [])
      else
        let rep0 := match s.r with
          | some rv => rv
          | none => 0
        let rep := if rep0 < 0 then (if isLive then maxTimelineRepeat else 0) else rep0
        let res := emitLoop resolveUrl (tmpl.media.getD "") repId bandwidth baseUrl
          ts tmpl.presentationTimeOffset du (rep.toNat + 1) st.number ct
        (⟨res.1, res.2.1, ld⟩, res.2.2)

/-- The fold of `_parse_segment_timeline` over the `<S>` elements. -/
def parseTimelineAux (resolveUrl : String → String → String) (tmpl : RTemplate)
    (repId : String) (bandwidth : Int) (baseUrl : String) (isLive : Bool) :
    TLState → List SElem → TLState × List DashSegment
  | st, [] => (st, [])
  | st, s :: rest =>
      let r1 := processS resolveUrl tmpl repId bandwidth baseUrl isLive st s
      let r2 := parseTimelineAux resolveUrl tmpl repId bandwidth baseUrl isLive
        r1.1 rest
      (r2.1, r1.2 ++ r2.2)

/-- `DashParser._parse_segment_timeline`. -/
def parseSegmentTimeline (resolveUrl : String → String → String)
    (tmpl : RTemplate) (repId : String) (bandwidth : Int) (baseUrl : String)
    (isLive : Bool) : List DashSegment :=
  match tmpl.timeline with
  | none => []
  | some tl =>
      match tmpl.media with
      | none => []
      | some m =>
          if m = "" then []
          else
            (parseTimelineAux resolveUrl tmpl repId bandwidth baseUrl isLive
              ⟨tmpl.startNumber, tmpl.presentationTimeOffset, tmpl.duration⟩
              tl).2

/-- Python `str.lower()` (ASCII view of the attribute strings). -/
def pyLower (s : String) : String :=
  String.mk (s.data.map Char.toLower)

/-- Python `pat in s` (substring containment). -/
def listInfix (pat : List Char) : List Char → Bool
  | [] => pat.isEmpty
  | c :: cs => pat.isPrefixOf (c :: cs) || listInfix pat cs

/-- Python `int(s)` on an attribute string: optional sign then digits. -/
def pyParseInt (s : String) : Option Int :=
  match s.data with
  | [] => none
  | '-' :: ds =>
      if ds ≠ [] ∧ ds.all Char.isDigit then
        some (-(Int.ofNat (DashParser.digitsToNat ds)))
      else none
  | '+' :: ds =>
      if ds ≠ [] ∧ ds.all Char.isDigit then some (Int.ofNat (DashParser.digitsToNat ds))
      else none
  | ds =>
      if ds.all Char.isDigit then some (Int.ofNat (DashParser.digitsToNat ds))
      else none

/-- `DashParser._safe_int` over an optional attribute. -/
def safeIntAttr (v : Option String) (default : Int) : Int :=
  match v with
  | none => default
  | some s => (pyParseInt s).getD default

/-- `DashParser._maybe_int` over an optional attribute. -/
def maybeIntAttr (v : Option String) : Option Int :=
  match v with
  | none => none
  | some s => if s = "" then none else pyParseInt s

/-- Python `a or b` for an optional string `a`: `None` and `""` fall
through to `b`. -/
def pyOrStr (a : Option String) (b : String) : String :=
  match a with
  | some s => if s ≠ "" then s else b
  | none => b

/-- Python `a or b` for optional floats: `None` and `0.0` fall through. -/
def pyOrRat (a b : Option Rat) : Option Rat :=
  match a with
  | some x => if x ≠ 0 then some x else b
  | none => b

/-- `DashParser._base_dir`. -/
def baseDir (url : String) : String :=
  if url.data.getLast? = some '/' then url
  else if ('/' : Char) ∉ url.data then String.mk (url.data ++ ['/'])
  else String.mk ((url.data.reverse.dropWhile (fun c => c ≠ '/')).reverse)

/-- The raw attributes of one `SegmentTemplate` element.
`hasOtherAttrs` records whether the element carries any further
attributes (they make the merged dict non-empty). -/
structure TmplAttrs where
  targetInit : Option String
  media : Option String
  timescale : Option String
  duration : Option String
  startNumber : Option String
  presentationTimeOffset : Option String
  hasOtherAttrs : Bool
deriving DecidableEq, Repr

/-- A `SegmentTemplate` element with its optional `SegmentTimeline`. -/
structure TmplElem where
  attrs : TmplAttrs
  timeline : Option (List SElem)
deriving DecidableEq, Repr

/-- `merged.update(template.attrib)`: child attributes override. -/
def mergeAttrs (parent child : TmplAttrs) : TmplAttrs :=
  ⟨child.targetInit.or parent.targetInit,
    child.media.or parent.media,
    child.timescale.or parent.timescale,
    child.duration.or parent.duration,
    child.startNumber.or parent.startNumber,
    child.presentationTimeOffset.or parent.presentationTimeOffset,
    parent.hasOtherAttrs || child.hasOtherAttrs⟩

/-- The merged attribute dict is empty. -/
def attrsEmpty (a : TmplAttrs) : Bool :=
  a.targetInit.isNone && a.media.isNone && a.timescale.isNone &&
    a.duration.isNone && a.startNumber.isNone &&
    a.presentationTimeOffset.isNone && !a.hasOtherAttrs

/-- `DashParser._resolve_segment_template`: merge attributes outside-in
over [MPD, Period, AdaptationSet, Representation], keep the innermost
timeline, and return `None` when nothing was found. -/
def resolveSegmentTemplate (levels : List (Option TmplElem)) : Option RTemplate :=
  let merged := levels.foldl
    (fun acc lvl =>
      match lvl with
      | none => acc
      | some t =>
          (mergeAttrs acc.1 t.attrs,
            match t.timeline with
            | some tl => some tl
            | none => acc.2))
    (⟨none, none, none, none, none, none, false⟩, none)
  if attrsEmpty merged.1 ∧ merged.2 = none then none
  else
    let timescale := safeIntAttr merged.1.timescale 1
    some ⟨merged.1.targetInit, merged.1.media,
      if timescale > 0 then timescale else 1,
      maybeIntAttr merged.1.duration,
      safeIntAttr merged.1.startNumber 1,
      safeIntAttr merged.1.presentationTimeOffset 0,
      merged.2⟩

/-- A `SegmentURL` child of a `SegmentList`. -/
structure SegUrlElem where
  media : Option String
  duration : Option String
deriving DecidableEq, Repr

/-- A `SegmentList` element. -/
structure SegListElem where
  initSourceURL : Option String
  timescale : Option String
  duration : Option String
  startNumber : Option String
  segmentUrls : List SegUrlElem
deriving DecidableEq, Repr

/-- A `SegmentBase` element. -/
structure SegBaseElem where
  initSourceURL : Option String
deriving DecidableEq, Repr

/-- `DashParser._parse_segment_list`. -/
def parseSegmentList (resolveUrl : String → String → String)
    (sl : SegListElem) (baseUrl : String) : String × List DashSegment :=
  let initUrl := match sl.initSourceURL with
    | some u => if u ≠ "" then resolveUrl baseUrl u else ""
    | none => ""
  let timescale := safeIntAttr sl.timescale 1
  let defaultDur : Option Rat :=
    match maybeIntAttr sl.duration with
    | some du => if du ≠ 0 ∧ timescale ≠ 0 then some ((du : Rat) / (timescale : Rat))
        else none
    | none => none
  let startNumber := safeIntAttr sl.startNumber 1
  (initUrl,
    sl.segmentUrls.enum.filterMap (fun p =>
      match p.2.media with
      | none => none
      | some m =>
          if m = "" then none
          else
            let dur : Rat :=
              match maybeIntAttr p.2.duration with
              | some du =>
                  if du ≠ 0 ∧ timescale ≠ 0 then (du : Rat) / (timescale : Rat)
                  else defaultDur.getD 0
              | none => defaultDur.getD 0
            some ⟨resolveUrl baseUrl m, dur, startNumber + p.1⟩))

/-- `DashParser._parse_segment_base`. -/
def parseSegmentBase (resolveUrl : String → String → String)
    (sb : SegBaseElem) (baseUrl : String) (totalDuration : Option Rat) :
    String × List DashSegment :=
  let initUrl := match sb.initSourceURL with
    | some u => if u ≠ "" then resolveUrl baseUrl u else ""
    | none => ""
  (initUrl,
    match totalDuration with
    | some td => [⟨baseUrl, td, 1⟩]
    | none => [])

/-- The duration-driven emission loop of `_parse_segment_template`. -/
def emitNumberLoop (resolveUrl : String → String → String) (media repId : String)
    (bandwidth : Int) (baseUrl : String) (segDur : Rat) (durationUnits : Int) :
    Nat → Int → Int → List DashSegment
  | 0, _, _ => []
  | k + 1, segNumber, timeCursor =>
      let path := fillTemplateS media repId segNumber timeCursor bandwidth
      if path = "" then []
      else
        ⟨resolveUrl baseUrl path, segDur, segNumber⟩ ::
          emitNumberLoop resolveUrl media repId bandwidth baseUrl segDur
            durationUnits k (segNumber + 1) (timeCursor + durationUnits)

/-- `DashParser._parse_segment_template`. -/
def parseSegmentTemplate (resolveUrl : String → String → String)
    (tmpl : RTemplate) (repId : String) (baseUrl : String) (bandwidth : Int)
    (totalDuration : Option Rat) (isLive : Bool) :
    String × List DashSegment :=
  let initUrl := match tmpl.targetInit with
    | some ini =>
        if ini ≠ "" then
          let initPath := fillTemplateS ini repId tmpl.startNumber 0 bandwidth
          if initPath ≠ "" then resolveUrl baseUrl initPath else ""
        else ""
    | none => ""
  let media := tmpl.media.getD ""
  if media = "" then (initUrl, [])
  else
    match tmpl.timeline with
    | some _ =>
        (initUrl, parseSegmentTimeline resolveUrl tmpl repId bandwidth baseUrl isLive)
    | none =>
        match tmpl.duration with
        | some du =>
            if du = 0 then (initUrl, [])
            else
              let timescale := if tmpl.timescale = 0 then 1 else tmpl.timescale
              let segDur : Rat := (du : Rat) / (timescale : Rat)
              let numSegments : Nat :=
                match totalDuration with
                | some td =>
                    if td ≠ 0 ∧ segDur > 0 then (max 1 ⌈td / segDur⌉).toNat
                    else fallbackSegmentCount
                | none => fallbackSegmentCount
              (initUrl,
                emitNumberLoop resolveUrl media repId bandwidth baseUrl segDur du
                  numSegments tmpl.startNumber tmpl.presentationTimeOffset)
        | none => (initUrl, [])

/-- A `Representation` element. -/
structure RepElem where
  id : String
  mimeType : Option String
  contentType : Option String
  codecs : Option String
  width : Option String
  height : Option String
  bandwidth : Option String
  baseURL : Option String
  directKid : Option String
  cpKids : List (Option String)
  segmentTemplate : Option TmplElem
  segmentList : Option SegListElem
  segmentBase : Option SegBaseElem
deriving DecidableEq, Repr

/-- An `AdaptationSet` element. -/
structure AdaptationSetElem where
  contentType : Option String
  mimeType : Option String
  codecs : Option String
  baseURL : Option String
  directKid : Option String
  cpKids : List (Option String)
  segmentTemplate : Option TmplElem
  segmentList : Option SegListElem
  segmentBase : Option SegBaseElem
  representations : List RepElem
deriving DecidableEq, Repr

/-- A `Period` element (duration attribute already ISO-8601-parsed). -/
structure PeriodElem where
  duration : Option Rat
  baseURL : Option String
  segmentTemplate : Option TmplElem
  segmentList : Option SegListElem
  segmentBase : Option SegBaseElem
  adaptationSets : List AdaptationSetElem
deriving DecidableEq, Repr

/-- The MPD document root (duration attributes already parsed, `BaseURL`
texts already stripped). -/
structure MpdDoc where
  typ : Option String
  mediaPresentationDuration : Option Rat
  minimumUpdatePeriod : Option Rat
  baseURL : Option String
  segmentTemplate : Option TmplElem
  segmentList : Option SegListElem
  segmentBase : Option SegBaseElem
  periods : List PeriodElem
deriving DecidableEq, Repr

/-- `DashRepresentation`. -/
structure DashRepresentation where
  id : String
  bandwidth : Int
  codecs : String
  mimeType : String
  width : Option Int
  height : Option Int
  initUrl : String
  segments : List DashSegment
  isVideo : Bool
  isAudio : Bool
  defaultKid : Option String
deriving DecidableEq, Repr

/-- `DashManifest`. -/
structure DashManifest where
  baseUrl : String
  mediaPresentationDuration : Option Rat
  representations : List DashRepresentation
  isLive : Bool
  minUpdatePeriod : Option Rat
deriving DecidableEq, Repr

/-- `DashParser._apply_base_url` (a non-empty `BaseURL` child composes
onto the running base). -/
def applyBaseUrl (resolveUrl : String → String → String) (cur : String)
    (b : Option String) : String :=
  match b with
  | none => cur
  | some t => if t = "" then cur else resolveUrl cur t

/-- `DashParser._skip_adaptation_set`. -/
def skipAdaptationSet (a : AdaptationSetElem) : Bool :=
  let ct := pyLower (a.contentType.getD "")
  let mt := pyLower (a.mimeType.getD "")
  (decide (ct ≠ "" ∧ ct ≠ "audio" ∧ ct ≠ "video")) ||
    (["text", "ttml", "vtt", "srt"].any (fun k => listInfix k.data mt.data))

/-- `DashParser._classify_track`. -/
def classifyTrack (a : AdaptationSetElem) (rep : RepElem) : Bool × Bool :=
  let mimes := [pyLower (rep.mimeType.getD ""), pyLower (a.mimeType.getD "")]
  let contents := [pyLower (rep.contentType.getD ""), pyLower (a.contentType.getD "")]
  (mimes.any (fun m => listInfix "video".data m.data) ||
      contents.any (fun c => c == "video"),
    mimes.any (fun m => listInfix "audio".data m.data) ||
      contents.any (fun c => c == "audio"))

/-- The per-element KID search of `_resolve_default_kid`: a truthy direct
attribute wins, else the first truthy `ContentProtection` KID. -/
def kidOfElem (direct : Option String) (cps : List (Option String)) :
    Option String :=
  match direct with
  | some d =>
      if d ≠ "" then some (Decryptor.normalizeKid d)
      else cps.findSome? (fun k =>
        match k with
        | some s => if s ≠ "" then some (Decryptor.normalizeKid s) else none
        | none => none)
  | none => cps.findSome? (fun k =>
      match k with
      | some s => if s ≠ "" then some (Decryptor.normalizeKid s) else none
      | none => none)

/-- `DashParser._resolve_default_kid`: representation first, then the
adaptation set. -/
def resolveDefaultKid (a : AdaptationSetElem) (rep : RepElem) : Option String :=
  match kidOfElem rep.directKid rep.cpKids with
  | some k => some k
  | none => kidOfElem a.directKid a.cpKids

/-- `DashParser._find_first_in_hierarchy`. -/
def firstSome {α : Type} (l : List (Option α)) : Option α :=
  l.findSome? id

/-- The segment-addressing dispatch for one representation in
`DashParser.parse`: `SegmentTemplate` with media, else `SegmentList`,
else `SegmentBase`, else no known addressing (`None`). -/
def repAddressing (resolveUrl : String → String → String) (doc : MpdDoc)
    (period : PeriodElem) (a : AdaptationSetElem) (rep : RepElem)
    (repBase : String) (bandwidth : Int) (totalDuration : Option Rat)
    (isLive : Bool) : Option (String × List DashSegment) :=
  let template := resolveSegmentTemplate
    [doc.segmentTemplate, period.segmentTemplate, a.segmentTemplate,
      rep.segmentTemplate]
  let segmentList := firstSome
    [rep.segmentList, a.segmentList, period.segmentList, doc.segmentList]
  let segmentBase := firstSome
    [rep.segmentBase, a.segmentBase, period.segmentBase, doc.segmentBase]
  let listOrBase : Option (String × List DashSegment) :=
    match segmentList with
    | some sl => some (parseSegmentList resolveUrl sl repBase)
    | none =>
        match segmentBase with
        | some sb => some (parseSegmentBase resolveUrl sb repBase totalDuration)
        | none => none
  match template with
  | some t =>
      if (t.media.getD "") ≠ "" then
        some (parseSegmentTemplate resolveUrl t rep.id repBase bandwidth
          totalDuration isLive)
      else listOrBase
  | none => listOrBase

/-- The body of the representation loop in `DashParser.parse`; `none`
mirrors every `continue`. -/
def processRep (resolveUrl : String → String → String) (doc : MpdDoc)
    (period : PeriodElem) (a : AdaptationSetElem) (isLive : Bool)
    (mediaDuration : Option Rat) (adaptationBase : String) (rep : RepElem) :
    Option DashRepresentation :=
  if rep.id = "" then none
  else
    let repMime := pyOrStr rep.mimeType (a.mimeType.getD "")
    let repCodecs := pyOrStr rep.codecs (a.codecs.getD "")
    let width := maybeIntAttr rep.width
    let height := maybeIntAttr rep.height
    let bandwidth := safeIntAttr rep.bandwidth 0
    let cls := classifyTrack a rep
    if ¬ cls.1 ∧ ¬ cls.2 then none
    else
      let defaultKid := resolveDefaultKid a rep
      let repBase := applyBaseUrl resolveUrl adaptationBase rep.baseURL
      let totalDuration := pyOrRat period.duration mediaDuration
      match repAddressing resolveUrl doc period a rep repBase bandwidth
          totalDuration isLive with
      | none => none
      | some addr =>
          if addr.1 = "" ∨ addr.2 = [] then none
          else some ⟨rep.id, bandwidth, repCodecs, repMime, width, height,
            addr.1, addr.2, cls.1, cls.2, defaultKid⟩

/-- `DashParser.parse` over the structural MPD document. -/
def parseMpd (resolveUrl : String → String → String) (doc : MpdDoc)
    (mpdUrl : String) : DashManifest :=
  let mpdDir := baseDir mpdUrl
  let manifestBase := applyBaseUrl resolveUrl mpdDir doc.baseURL
  let typ := match doc.typ with
    | none => "static"
    | some s => if s = "" then "static" else s
  let isLive := pyLower typ == "dynamic"
  let representations := doc.periods.flatMap (fun period =>
    let periodBase := applyBaseUrl resolveUrl manifestBase period.baseURL
    period.adaptationSets.flatMap (fun a =>
      if skipAdaptationSet a then []
      else
        let adaptationBase := applyBaseUrl resolveUrl periodBase a.baseURL
        a.representations.filterMap
          (processRep resolveUrl doc period a isLive
            doc.mediaPresentationDuration adaptationBase)))
  ⟨manifestBase, doc.mediaPresentationDuration, representations, isLive,
    doc.minimumUpdatePeriod⟩

end DashParser

namespace Session

/-- A `DashRepresentation` as consumed by
`StreamSession._select_representations`. -/
structure SessRep where
  id : String
  bandwidth : Int
  isVideo : Bool
  isAudio : Bool
deriving DecidableEq, Repr

/-- Python `max(reps, key=lambda rep: rep.bandwidth or 0)`: the first
element with the maximal bandwidth (`or 0` is the identity on ints). -/
def pyMaxByBandwidth : List SessRep → Option SessRep
  | [] => none
  | r :: rest =>
      some (rest.foldl
        (fun best r' => if r'.bandwidth > best.bandwidth then r' else best) r)

/-- `StreamSession._select_representations`. -/
def selectRepresentations (representationId : Option String)
    (reps : List SessRep) : Option SessRep × Option SessRep :=
  let video :=
    if pyTruthyStr representationId then
      reps.find? (fun r => r.id == representationId.getD "")
    else
      pyMaxByBandwidth (reps.filter (fun r => r.isVideo))
  let audio := pyMaxByBandwidth (reps.filter (fun r => r.isAudio))
  (video, audio)

end Session

end Dash2hls

namespace Dash2hls

open Decryptor Server

/-- C1: for every stream id and requested path, `serve_hls` either serves a
file whose canonicalized path lies inside the session's resolved output
root, or responds 404 (`none`); no request reaches a file outside the
session root. -/
theorem serve_hls_path_confinement (sessions : List (String × PathParts))
    (fs : List PathParts) (streamId : String) (fn : ReqPath) :
    serveHls sessions fs streamId fn = none ∨
      ∃ p root, serveHls sessions fs streamId fn = some p ∧
        sessions.lookup streamId = some root ∧
        (resolveParts root).isPrefixOf p = true ∧ p ∈ fs := by
  unfold serveHls
  cases h : sessions.lookup streamId with
  | none => exact Or.inl rfl
  | some outputPath =>
      simp only
      by_cases hp : (resolveParts outputPath).isPrefixOf
          (resolveParts (pyJoin outputPath fn)) = true
      · by_cases hf : resolveParts (pyJoin outputPath fn) ∈ fs
        · refine Or.inr ⟨_, outputPath, ?_, rfl, hp, hf⟩
          simp [hp, hf]
        · left; simp [hp, hf]
      · left; simp [hp]

/-- C2 counterexample: with two registered keys and an absent KID,
`decrypt_segment` does not fail with a "no key for KID" error; it selects
the first registered key. -/
theorem decrypt_no_kid_two_keys_uses_first :
    decryptKeySelection
        [("00000000000000000000000000000001", "11111111111111111111111111111111"),
         ("00000000000000000000000000000002", "22222222222222222222222222222222")]
        100 none
      = Except.ok ("00000000000000000000000000000001",
                   "11111111111111111111111111111111") := by
  rfl

/-- C2 amended: if a KID is supplied it is normalized and looked up, and a
found KID's key is used; a supplied KID that is not found falls back to the
single registered key when exactly one key is registered, and fails with a
"no key for KID" error only when several keys are registered; an absent KID
always selects the first registered key, however many keys there are. -/
theorem decrypt_key_selection_cases (keyMap : KeyMap) (dataLen : Nat)
    (kid : String) (hlen : 8 ≤ dataLen) :
    (∀ key, keyMap.find (normalizeKid kid) = some key → kid ≠ "" →
      decryptKeySelection keyMap dataLen (some kid)
        = Except.ok (normalizeKid kid, key)) ∧
    (keyMap.find (normalizeKid kid) = none → kid ≠ "" → keyMap.length = 1 →
      decryptKeySelection keyMap dataLen (some kid) = Except.ok keyMap.headI) ∧
    (keyMap.find (normalizeKid kid) = none → kid ≠ "" → 2 ≤ keyMap.length →
      decryptKeySelection keyMap dataLen (some kid)
        = Except.error (DecErr.noKeyForKid (normalizeKid kid))) ∧
    (decryptKeySelection keyMap dataLen none = Except.ok keyMap.headI) := by
  have h0 : ¬ dataLen = 0 := by omega
  have h8 : ¬ dataLen < 8 := by omega
  refine ⟨?_, ?_, ?_, ?_⟩
  · intro key hfind hne
    simp [decryptKeySelection, h0, h8, pyTruthyStr, hne, hfind]
  · intro hfind hne hone
    simp [decryptKeySelection, h0, h8, pyTruthyStr, hne, hfind, hone]
  · intro hfind hne htwo
    have : ¬ keyMap.length = 1 := by omega
    simp [decryptKeySelection, h0, h8, pyTruthyStr, hne, hfind, this]
  · simp [decryptKeySelection, h0, h8, pyTruthyStr]

/-- Witness for `decrypt_key_selection_cases` at a concrete two-key map. -/
theorem decrypt_key_selection_cases_witness :
    decryptKeySelection
        [("aa", "k1"), ("bb", "k2")] 64 (some "AA")
      = Except.ok ("aa", "k1") := by
  have h := decrypt_key_selection_cases [("aa", "k1"), ("bb", "k2")] 64 "AA"
    (by norm_num)
  exact h.1 "k1" (by decide) (by decide)

open Session

theorem collectNewNumbers_eq_filter (st : TrackState) (nums : List (Option Int)) :
    collectNewNumbers st nums = nums.reduceOption.filter (freshNumber st) := by
  induction nums with
  | nil => rfl
  | cons hd tl ih =>
      cases hd with
      | none => simpa [collectNewNumbers, List.reduceOption] using ih
      | some n =>
          by_cases h : freshNumber st n
          · simpa [collectNewNumbers, List.reduceOption, h] using ih
          · simpa [collectNewNumbers, List.reduceOption, h] using ih

theorem collectNewNumbers_mem {st : TrackState} {nums : List (Option Int)}
    {n : Int} (h : n ∈ collectNewNumbers st nums) :
    n ∉ st.pset ∧ ∀ l, st.last = some l → l < n := by
  rw [collectNewNumbers_eq_filter] at h
  have hf : freshNumber st n = true := (List.mem_filter.mp h).2
  unfold freshNumber at hf
  rcases Bool.and_eq_true_iff.mp hf with ⟨h1, h2⟩
  refine ⟨by simpa using h1, fun l hl => ?_⟩
  rw [hl] at h2
  have : ¬ n ≤ l := by simpa using h2
  omega

theorem trimQueue_spec (limit : Nat) :
    ∀ q : List Int, q.Nodup →
      trimQueue limit q q.toFinset
        = (q.drop (q.length - limit), (q.drop (q.length - limit)).toFinset) := by
  intro q
  induction q with
  | nil => simp [trimQueue]
  | cons a rest ih =>
      intro hnd
      have ha : a ∉ rest := (List.nodup_cons.mp hnd).1
      have hr : rest.Nodup := (List.nodup_cons.mp hnd).2
      rw [trimQueue]
      by_cases h : limit < (a :: rest).length
      · have herase : ((a :: rest).toFinset).erase a = rest.toFinset := by
          rw [List.toFinset_cons, Finset.erase_insert]
          simpa using ha
        have harith : (a :: rest).length - limit = (rest.length - limit) + 1 := by
          simp only [List.length_cons] at h ⊢
          omega
        rw [if_pos h, herase, ih hr, harith]
        simp
      · have harith : (a :: rest).length - limit = 0 := by
          simp only [List.length_cons] at h ⊢
          omega
        rw [if_neg h, harith]
        simp

theorem processSegment_inv {limit : Nat} {written : List Int}
    {st : TrackState} {n : Int} (h : TrackInv limit written st)
    (hgt : ∀ l, st.last = some l → l < n) :
    TrackInv limit (written ++ [n]) (processSegment limit st n) := by
  obtain ⟨hq, hps, hlen, hw, hbound⟩ := h
  have hnw : n ∉ written := by
    intro hn
    obtain ⟨l, hl, hxl⟩ := hbound n hn
    exact absurd (hgt l hl) (by omega)
  have hwn : (written ++ [n]).Nodup := by
    simp [List.nodup_append, hw, hnw]
  have hbn : ∀ x ∈ written ++ [n], ∃ l, (some n : Option Int) = some l ∧ x ≤ l := by
    intro x hx
    rcases List.mem_append.mp hx with hx | hx
    · obtain ⟨l, hl, hxl⟩ := hbound x hx
      exact ⟨n, rfl, by have := hgt l hl; omega⟩
    · simp only [List.mem_singleton] at hx
      exact ⟨n, rfl, le_of_eq hx⟩
  unfold processSegment markProcessed
  by_cases hmem : n ∈ st.pset
  · exact ⟨by simpa [hmem] using hq, by simpa [hmem] using hps,
      by simpa [hmem] using hlen, hwn, by simpa [hmem] using hbn⟩
  · have hnq : n ∉ st.queue := fun hc => hmem (hps ▸ List.mem_toFinset.mpr hc)
    have hq1 : (st.queue ++ [n]).Nodup := by simp [List.nodup_append, hq, hnq]
    have hps1 : insert n st.pset = (st.queue ++ [n]).toFinset := by
      rw [hps]
      simp [List.toFinset_append, Finset.insert_eq, Finset.union_comm]
    have hspec := trimQueue_spec limit (st.queue ++ [n]) hq1
    rw [if_neg hmem]
    simp only [hps1, hspec]
    refine ⟨?_, rfl, ?_, hwn, hbn⟩
    · exact hq1.sublist (List.drop_sublist _ _)
    · simp only [List.length_drop]
      omega

theorem process_fresh (limit : Nat) :
    ∀ (fresh : List Int) (st : TrackState) (written : List Int),
      TrackInv limit written st →
      fresh.Pairwise (· < ·) →
      (∀ m ∈ fresh, ∀ l, st.last = some l → l < m) →
      TrackInv limit (written ++ fresh) (fresh.foldl (processSegment limit) st) := by
  intro fresh
  induction fresh with
  | nil => intro st written hinv _ _; simpa using hinv
  | cons n rest ih =>
      intro st written hinv hp hgt
      have h1 : TrackInv limit (written ++ [n]) (processSegment limit st n) :=
        processSegment_inv hinv (hgt n (List.mem_cons_self n rest))
      have hlast : (processSegment limit st n).last = some n := rfl
      have hrest : ∀ m ∈ rest, ∀ l, (processSegment limit st n).last = some l → l < m := by
        intro m hm l hl
        rw [hlast] at hl
        cases hl
        exact (List.pairwise_cons.mp hp).1 m hm
      have := ih (processSegment limit st n) (written ++ [n]) h1
        (List.pairwise_cons.mp hp).2 hrest
      simpa [List.append_assoc] using this

theorem runPolls_inv (limit : Nat) :
    ∀ (polls : List (List (Option Int))) (st : TrackState) (written : List Int),
      TrackInv limit written st →
      (∀ p ∈ polls, p.reduceOption.Pairwise (· < ·)) →
      TrackInv limit (written ++ (runPolls limit st polls).2)
        (runPolls limit st polls).1 := by
  intro polls
  induction polls with
  | nil => intro st written hinv _; simpa [runPolls] using hinv
  | cons p rest ih =>
      intro st written hinv hsort
      have hfresh : (collectNewNumbers st p).Pairwise (· < ·) := by
        rw [collectNewNumbers_eq_filter]
        exact (hsort p (List.mem_cons_self p rest)).sublist (List.filter_sublist _)
      have hgt : ∀ m ∈ collectNewNumbers st p, ∀ l, st.last = some l → l < m :=
        fun m hm => (collectNewNumbers_mem hm).2
      have hstep := process_fresh limit (collectNewNumbers st p) st written hinv hfresh hgt
      have hrest := ih _ _ hstep
        (fun q hq => hsort q (List.mem_cons_of_mem p hq))
      simpa [runPolls, processPoll, List.append_assoc] using hrest

/-- C3: over any finite sequence of polls whose manifests list segment
numbers in strictly increasing order, each number is selected for
processing (and hence written) at most once per track; only numbers
outside the processed set and strictly above the last sequence are
selected; and the processed set and FIFO queue never exceed
`history_size` entries. -/
theorem session_dedup_history (historySize : Nat)
    (polls : List (List (Option Int))) (hsize : 0 < historySize)
    (hsort : ∀ p ∈ polls, p.reduceOption.Pairwise (· < ·)) :
    (runPolls (effectiveHistoryLimit historySize) TrackState.init polls).2.Nodup ∧
    (∀ pre suf, polls = pre ++ suf →
      (runPolls (effectiveHistoryLimit historySize) TrackState.init pre).1.queue.length
          ≤ historySize ∧
      (runPolls (effectiveHistoryLimit historySize) TrackState.init pre).1.pset.card
          ≤ historySize) ∧
    (∀ pre p suf, polls = pre ++ p :: suf →
      ∀ n ∈ collectNewNumbers
          (runPolls (effectiveHistoryLimit historySize) TrackState.init pre).1 p,
        n ∉ (runPolls (effectiveHistoryLimit historySize) TrackState.init pre).1.pset ∧
        ∀ l, (runPolls (effectiveHistoryLimit historySize)
            TrackState.init pre).1.last = some l → l < n) := by
  have hlimit : effectiveHistoryLimit historySize = historySize := by
    unfold effectiveHistoryLimit
    simp [Nat.pos_iff_ne_zero.mp hsize]
  rw [hlimit]
  have hinit : TrackInv historySize [] TrackState.init := by
    refine ⟨List.nodup_nil, ?_, ?_, List.nodup_nil, by simp⟩
    · simp [TrackState.init]
    · simp [TrackState.init]
  refine ⟨?_, ?_, ?_⟩
  · have := runPolls_inv historySize polls TrackState.init [] hinit hsort
    simpa using this.2.2.2.1
  · intro pre suf hsplit
    have hsort' : ∀ p ∈ pre, p.reduceOption.Pairwise (· < ·) := by
      intro p hp
      exact hsort p (by rw [hsplit]; exact List.mem_append_left _ hp)
    have hinv := runPolls_inv historySize pre TrackState.init [] hinit hsort'
    obtain ⟨hq, hps, hlen, -, -⟩ := hinv
    refine ⟨hlen, ?_⟩
    rw [hps]
    exact le_trans (List.toFinset_card_le _) hlen
  · intro pre p suf hsplit n hn
    exact collectNewNumbers_mem hn

/-- Witness for `session_dedup_history`: two polls listing segments
`[5, 6, 7]` then `[6, 7, 8]` write each number exactly once. -/
theorem session_dedup_history_witness :
    (runPolls (effectiveHistoryLimit 64) TrackState.init
      [[some 5, some 6, some 7], [some 6, some 7, some 8]]).2.Nodup :=
  (session_dedup_history 64 [[some 5, some 6, some 7], [some 6, some 7, some 8]]
    (by norm_num) (by decide)).1

open HlsWriter

theorem countSegEntries_generate (segments : List (Rat × String))
    (td : Rat) (seq : Int) (live endFlag : Bool) :
    countSegEntries (generateMediaPlaylist segments td seq live endFlag)
      = segments.length := by
  unfold countSegEntries generateMediaPlaylist
  cases live <;> cases endFlag <;>
    simp [List.filter_append, List.filter_map, Function.comp]

theorem mediaSeqVals_generate (segments : List (Rat × String))
    (td : Rat) (seq : Int) (live endFlag : Bool) :
    mediaSeqVals (generateMediaPlaylist segments td seq live endFlag) = [seq] := by
  unfold mediaSeqVals generateMediaPlaylist
  cases live <;> cases endFlag <;>
    simp [List.filterMap_append, List.filterMap_map, Function.comp]

theorem generate_endTag_last (segments : List (Rat × String))
    (td : Rat) (seq : Int) (live : Bool) :
    (generateMediaPlaylist segments td seq live true).getLast?
      = some PlLine.endTag := by
  have h : ∀ (x : PlLine) (l : List PlLine),
      (x :: (l ++ [PlLine.endTag])).getLast? = some PlLine.endTag := by
    intro x l
    rw [← List.cons_append]
    exact List.getLast?_concat _
  cases live <;> simp [generateMediaPlaylist] <;> exact h _ _

theorem trimWindow_spec (w : Nat) :
    ∀ (segs : List HSeg) (files : List String),
      files = segs.map HSeg.filename →
      trimWindow w segs files
        = (segs.drop (segs.length - w),
           (segs.drop (segs.length - w)).map HSeg.filename) := by
  intro segs
  induction segs with
  | nil => intro files hf; simp [trimWindow, hf]
  | cons s rest ih =>
      intro files hf
      rw [trimWindow]
      by_cases h : w < (s :: rest).length
      · have hunlink : fsUnlink files s.filename = rest.map HSeg.filename := by
          rw [hf]
          simp [fsUnlink]
        have harith : (s :: rest).length - w = (rest.length - w) + 1 := by
          simp only [List.length_cons] at h ⊢
          omega
        rw [if_pos h, hunlink, ih _ rfl, harith]
        simp
      · have harith : (s :: rest).length - w = 0 := by
          simp only [List.length_cons] at h ⊢
          omega
        rw [if_neg h, harith]
        simp [hf]

theorem addSegment_inv {w : Nat} (hw : 0 < w) {added : List (Int × Rat)}
    {c : Int × Rat} {p : WState × TrackFs} (hInv : WriterInv w added p)
    (hfresh : ∀ a ∈ added, segFileName a.1 ≠ segFileName c.1) :
    WriterInv w (added ++ [c]) (addSegment p.1 p.2 c.1 c.2) := by
  obtain ⟨hlive, hwin, hsegs, hlen, hfiles, -, -⟩ := hInv
  have hnotin : segFileName c.1 ∉ p.2.segFiles := by
    rw [hfiles]
    intro hmem
    obtain ⟨s, hs, hfn⟩ := List.mem_map.mp hmem
    have hs' : s ∈ added.map mkSeg :=
      (List.drop_sublist _ _).subset (hsegs ▸ hs)
    obtain ⟨a, ha, rfl⟩ := List.mem_map.mp hs'
    exact hfresh a ha hfn
  have hlensegs : p.1.segments.length = added.length - (added.length - w) := by
    rw [hsegs]
    simp
  have hwrite : fsWrite p.2.segFiles (segFileName c.1)
      = p.2.segFiles ++ [segFileName c.1] := by
    simp [fsWrite, hnotin]
  have hle : added.length - w ≤ (added.map mkSeg).length := by
    simp only [List.length_map]
    omega
  have hsegs1 : p.1.segments ++ [mkSeg c]
      = ((added ++ [c]).map mkSeg).drop (added.length - w) := by
    rw [List.map_append, List.drop_append_of_le_length hle, hsegs]
    simp [mkSeg]
  have hfiles1 : fsWrite p.2.segFiles (segFileName c.1)
      = (p.1.segments ++ [mkSeg c]).map HSeg.filename := by
    rw [hwrite, hfiles]
    simp [mkSeg]
  have hwz : p.1.windowSize ≠ 0 := by omega
  have hspec := trimWindow_spec p.1.windowSize (p.1.segments ++ [mkSeg c])
    (fsWrite p.2.segFiles (segFileName c.1)) hfiles1
  have h1 : (((added ++ [c]).map mkSeg).drop (added.length - w)).length
      = added.length + 1 - (added.length - w) := by
    simp
  have hdrop : ((p.1.segments ++ [mkSeg c]).drop
      ((p.1.segments ++ [mkSeg c]).length - p.1.windowSize))
      = ((added ++ [c]).map mkSeg).drop ((added ++ [c]).length - w) := by
    rw [hsegs1, List.drop_drop, h1, hwin]
    congr 1
    simp only [List.length_append, List.length_cons, List.length_nil]
    omega
  have htrim : trimWindow p.1.windowSize (p.1.segments ++ [mkSeg c])
      (fsWrite p.2.segFiles (segFileName c.1))
      = (((added ++ [c]).map mkSeg).drop ((added ++ [c]).length - w),
        (((added ++ [c]).map mkSeg).drop ((added ++ [c]).length - w)).map
          HSeg.filename) := by
    rw [hspec, hdrop]
  have hlen2 : (((added ++ [c]).map mkSeg).drop
      ((added ++ [c]).length - w)).length ≤ w := by
    simp only [List.length_drop, List.length_map, List.length_append,
      List.length_cons, List.length_nil]
    omega
  have hne2 : (((added ++ [c]).map mkSeg).drop ((added ++ [c]).length - w)) ≠ [] := by
    intro hempty
    have := congrArg List.length hempty
    simp only [List.length_drop, List.length_map, List.length_append,
      List.length_cons, List.length_nil] at this
    omega
  have haddeq : addSegment p.1 p.2 c.1 c.2
      = (⟨p.1.isLive, p.1.windowSize,
          ((added ++ [c]).map mkSeg).drop ((added ++ [c]).length - w),
          max p.1.targetDuration c.2, p.1.finalized⟩,
        writePlaylist
          ⟨p.1.isLive, p.1.windowSize,
            ((added ++ [c]).map mkSeg).drop ((added ++ [c]).length - w),
            max p.1.targetDuration c.2, p.1.finalized⟩
          ⟨(((added ++ [c]).map mkSeg).drop ((added ++ [c]).length - w)).map
              HSeg.filename, p.2.playlist⟩) := by
    simp only [addSegment]
    rw [if_pos hwz]
    rw [show (⟨c.1, c.2, segFileName c.1⟩ : HSeg) = mkSeg c from rfl, htrim]
  rw [haddeq]
  have hplsegs : (writePlaylist
      ⟨p.1.isLive, p.1.windowSize,
        ((added ++ [c]).map mkSeg).drop ((added ++ [c]).length - w),
        max p.1.targetDuration c.2, p.1.finalized⟩
      ⟨(((added ++ [c]).map mkSeg).drop ((added ++ [c]).length - w)).map
          HSeg.filename, p.2.playlist⟩)
      = ⟨(((added ++ [c]).map mkSeg).drop ((added ++ [c]).length - w)).map
            HSeg.filename,
          some (playlistOf
            ⟨p.1.isLive, p.1.windowSize,
              ((added ++ [c]).map mkSeg).drop ((added ++ [c]).length - w),
              max p.1.targetDuration c.2, p.1.finalized⟩)⟩ := by
    unfold writePlaylist
    rw [if_neg hne2]
  rw [hplsegs]
  exact ⟨hlive, hwin, rfl, hlen2, rfl,
    fun hcontra => absurd (congrArg List.length hcontra) (by simp),
    fun _ => ⟨hne2, rfl⟩⟩

theorem runAdds_inv (w : Nat) (hw : 0 < w) :
    ∀ (rest added : List (Int × Rat)) (p : WState × TrackFs),
      (((added ++ rest).map Prod.fst).Pairwise
        (fun a b => segFileName a ≠ segFileName b)) →
      WriterInv w added p →
      WriterInv w (added ++ rest) (runAdds p rest) := by
  intro rest
  induction rest with
  | nil => intro added p _ hInv; simpa [runAdds] using hInv
  | cons c rest' ih =>
      intro added p hpw hInv
      have hfresh : ∀ a ∈ added, segFileName a.1 ≠ segFileName c.1 := by
        intro a ha
        have hmap : (added ++ c :: rest').map Prod.fst
            = added.map Prod.fst ++ c.1 :: rest'.map Prod.fst := by
          simp
        rw [hmap] at hpw
        have := (List.pairwise_append.mp hpw).2.2 a.1 (List.mem_map_of_mem _ ha)
          c.1 (List.mem_cons_self _ _)
        exact this
      have hstep := addSegment_inv hw hInv hfresh
      have hpw' : (((added ++ [c]) ++ rest').map Prod.fst).Pairwise
          (fun a b => segFileName a ≠ segFileName b) := by
        simpa using hpw
      have := ih (added ++ [c]) (addSegment p.1 p.2 c.1 c.2) hpw' hstep
      simpa [runAdds] using this

/-- C4: for every live writer with positive window size and every finite
sequence of `add_segment` calls with pairwise-distinct segment filenames,
after each call the in-memory window and the written playlist hold at most
`window_size` entries, the segment files on disk are exactly those of the
current window (so every evicted entry's file has been deleted), and
`#EXT-X-MEDIA-SEQUENCE` equals the sequence of the window's oldest
entry. -/
theorem hls_live_window_discipline (w : Nat) (calls : List (Int × Rat))
    (hw : 0 < w)
    (hdist : (calls.map Prod.fst).Pairwise
      (fun a b => segFileName a ≠ segFileName b)) :
    ∀ pre suf, calls = pre ++ suf →
      (runLive w pre).1.segments.length ≤ w ∧
      (∀ pl, (runLive w pre).2.playlist = some pl → countSegEntries pl ≤ w) ∧
      (runLive w pre).2.segFiles = (runLive w pre).1.segments.map HSeg.filename ∧
      (∀ c ∈ pre, c.1 ∉ (runLive w pre).1.segments.map HSeg.sequence →
        segFileName c.1 ∉ (runLive w pre).2.segFiles) ∧
      (pre ≠ [] → ∃ s rest pl, (runLive w pre).1.segments = s :: rest ∧
        (runLive w pre).2.playlist = some pl ∧ mediaSeqVals pl = [s.sequence]) := by
  intro pre suf hsplit
  have hdistpre : (pre.map Prod.fst).Pairwise
      (fun a b => segFileName a ≠ segFileName b) := by
    refine List.Pairwise.sublist ?_ hdist
    rw [hsplit, List.map_append]
    exact List.sublist_append_left _ _
  have hinit : WriterInv w [] (initWriter true w, initTrackFs) := by
    refine ⟨rfl, by simp [initWriter], by simp [initWriter], by simp [initWriter],
      by simp [initWriter, initTrackFs], fun _ => rfl, fun h => absurd rfl h⟩
  have hInv := runAdds_inv w hw pre [] (initWriter true w, initTrackFs)
    (by simpa using hdistpre) hinit
  rw [List.nil_append] at hInv
  have hInv' : WriterInv w pre (runLive w pre) := hInv
  obtain ⟨hlive, hwin, hsegs, hlen, hfiles, hplnone, hplsome⟩ := hInv'
  refine ⟨hlen, ?_, hfiles, ?_, ?_⟩
  · intro pl hpl
    rcases List.eq_nil_or_concat pre with rfl | ⟨_, _, rfl⟩
    · rw [hplnone rfl] at hpl
      cases hpl
    · have hsome := (hplsome (by simp)).2
      rw [hsome] at hpl
      cases hpl
      rw [playlistOf, countSegEntries_generate]
      simpa using hlen
  · intro c hc hnotseq hmem
    rw [hfiles] at hmem
    obtain ⟨s, hs, hfn⟩ := List.mem_map.mp hmem
    have hs' : s ∈ pre.map mkSeg := (List.drop_sublist _ _).subset (hsegs ▸ hs)
    obtain ⟨a, ha, rfl⟩ := List.mem_map.mp hs'
    by_cases heq : c.1 = a.1
    · apply hnotseq
      rw [List.mem_map]
      exact ⟨mkSeg a, hs, heq.symm⟩
    · have hsym : Symmetric (fun a b : Int => segFileName a ≠ segFileName b) :=
        fun _ _ h => h.symm
      have hcm : c.1 ∈ calls.map Prod.fst := by
        rw [hsplit, List.map_append]
        exact List.mem_append_left _ (List.mem_map_of_mem _ hc)
      have ham : a.1 ∈ calls.map Prod.fst := by
        rw [hsplit, List.map_append]
        exact List.mem_append_left _ (List.mem_map_of_mem _ ha)
      exact hdist.forall hsym hcm ham heq (by simpa [mkSeg] using hfn.symm)
  · intro hne
    obtain ⟨hsne, hpl⟩ := hplsome hne
    obtain ⟨s, rest, hcons⟩ := List.exists_cons_of_ne_nil hsne
    refine ⟨s, rest, playlistOf (runLive w pre).1, hcons, hpl, ?_⟩
    rw [playlistOf, mediaSeqVals_generate, hcons]
    simp

/-- Witness for `hls_live_window_discipline`: `window_size = 3` and
segments 1..6 leave exactly the window `[4, 5, 6]` on disk, with
`#EXT-X-MEDIA-SEQUENCE` 4. -/
theorem hls_live_window_discipline_witness :
    (runLive 3 [(1, 4), (2, 4), (3, 4), (4, 4), (5, 4), (6, 4)]).1.segments.length ≤ 3 ∧
    (runLive 3 [(1, 4), (2, 4), (3, 4), (4, 4), (5, 4), (6, 4)]).2.segFiles
      = (runLive 3 [(1, 4), (2, 4), (3, 4), (4, 4), (5, 4), (6, 4)]).1.segments.map
          HSeg.filename := by
  have h := hls_live_window_discipline 3
    [(1, 4), (2, 4), (3, 4), (4, 4), (5, 4), (6, 4)] (by norm_num) (by decide)
    [(1, 4), (2, 4), (3, 4), (4, 4), (5, 4), (6, 4)] [] (by simp)
  exact ⟨h.1, h.2.2.1⟩

/-- C10: when no `add_segment` call has succeeded (the window is empty),
every playlist rewrite — including the one triggered by `finalize` — is a
no-op: no `index.m3u8` is created, no `#EXT-X-ENDLIST` is emitted, and the
track directory state is unchanged. -/
theorem empty_window_playlist_noop (st : WState) (fs : TrackFs)
    (h : st.segments = []) :
    writePlaylist st fs = fs ∧
    (finalizeTrack st fs).2 = fs ∧
    (finalizeTrack st fs).1
      = ⟨st.isLive, st.windowSize, st.segments, st.targetDuration, true⟩ := by
  unfold finalizeTrack writePlaylist
  simp [h]

/-- Witness for `empty_window_playlist_noop`: finalizing a fresh non-live
writer leaves the empty track directory untouched. -/
theorem empty_window_playlist_noop_witness :
    (finalizeTrack (initWriter false 6) initTrackFs).2 = initTrackFs :=
  (empty_window_playlist_noop (initWriter false 6) initTrackFs rfl).2.1

open Session in
/-- C5: for a non-live manifest, when every configured track's last
processed sequence is at least the last listed segment number (absent
tracks counting as complete), the iteration finalizes the writer, sets the
status to `completed` and returns from the loop, and every finalized
non-live track with a non-empty window has a playlist ending in
`#EXT-X-ENDLIST`. -/
theorem vod_completion_finalizes (videoRep audioRep : Option (List (Option Int)))
    (videoLast audioLast : Option Int) (status : StreamStatus) (mv : MVState)
    (hv : ∀ segs, videoRep = some segs → ∀ n, segs.getLastD none = some n →
      ∃ l, videoLast = some l ∧ n ≤ l)
    (ha : ∀ segs, audioRep = some segs → ∀ n, segs.getLastD none = some n →
      ∃ l, audioLast = some l ∧ n ≤ l) :
    vodCompletionStep false videoRep audioRep videoLast audioLast status mv
      = (StreamStatus.completed, finalizeMV mv, true) ∧
    (∀ p, mv.video = some p → ∃ p', (finalizeMV mv).video = some p' ∧
      p'.1.finalized = true ∧
      (p.1.segments ≠ [] → p.1.isLive = false →
        ∃ pl, p'.2.playlist = some pl ∧ pl.getLast? = some PlLine.endTag)) ∧
    (∀ p, mv.audio = some p → ∃ p', (finalizeMV mv).audio = some p' ∧
      p'.1.finalized = true ∧
      (p.1.segments ≠ [] → p.1.isLive = false →
        ∃ pl, p'.2.playlist = some pl ∧ pl.getLast? = some PlLine.endTag)) := by
  have hcomplete : ∀ (rep : Option (List (Option Int))) (lastSeq : Option Int),
      (∀ segs, rep = some segs → ∀ n, segs.getLastD none = some n →
        ∃ l, lastSeq = some l ∧ n ≤ l) →
      trackComplete rep lastSeq = true := by
    intro rep lastSeq hyp
    cases rep with
    | none => rfl
    | some segs =>
        unfold trackComplete
        by_cases hemp : segs.isEmpty
        · simp [hemp]
        · simp only [hemp, if_false, Bool.if_false_right, Bool.and_true]
          cases hlast : segs.getLastD none with
          | none => simp
          | some n =>
              obtain ⟨l, hl, hnl⟩ := hyp segs rfl n hlast
              simp [hl, hnl]
  have htrack : ∀ (p : WState × TrackFs),
      (HlsWriter.finalizeTrack p.1 p.2).1.finalized = true ∧
      (p.1.segments ≠ [] → p.1.isLive = false →
        ∃ pl, (HlsWriter.finalizeTrack p.1 p.2).2.playlist = some pl ∧
          pl.getLast? = some PlLine.endTag) := by
    intro p
    refine ⟨rfl, fun hne hlive => ?_⟩
    refine ⟨playlistOf ⟨p.1.isLive, p.1.windowSize, p.1.segments,
      p.1.targetDuration, true⟩, ?_, ?_⟩
    · unfold finalizeTrack writePlaylist
      simp [hne]
    · unfold playlistOf
      simp only [hlive]
      exact generate_endTag_last _ _ _ _
  refine ⟨?_, ?_, ?_⟩
  · unfold vodCompletionStep
    rw [hcomplete videoRep videoLast hv, hcomplete audioRep audioLast ha]
    rfl
  · intro p hp
    refine ⟨HlsWriter.finalizeTrack p.1 p.2, ?_, (htrack p).1, (htrack p).2⟩
    simp [finalizeMV, hp]
  · intro p hp
    refine ⟨HlsWriter.finalizeTrack p.1 p.2, ?_, (htrack p).1, (htrack p).2⟩
    simp [finalizeMV, hp]

open Session in
/-- Witness for `vod_completion_finalizes`: a VOD manifest listing video
segments 1..3 and audio segments 1..2, all processed. -/
theorem vod_completion_finalizes_witness :
    vodCompletionStep false (some [some 1, some 2, some 3])
        (some [some 1, some 2]) (some 3) (some 2) StreamStatus.running
        ⟨none, none⟩
      = (StreamStatus.completed, finalizeMV ⟨none, none⟩, true) :=
  (vod_completion_finalizes (some [some 1, some 2, some 3]) (some [some 1, some 2])
    (some 3) (some 2) StreamStatus.running ⟨none, none⟩
    (by intro segs hs n hn; cases hs; refine ⟨3, rfl, ?_⟩; simp at hn; omega)
    (by intro segs hs n hn; cases hs; refine ⟨2, rfl, ?_⟩; simp at hn; omega)).1

open DashParser

theorem pyReplace_nil (p0 : Char) (ps rep : List Char) :
    pyReplace p0 ps rep [] = [] := by
  rw [pyReplace]

theorem pyReplace_cons_of_ne {p0 : Char} (ps rep : List Char) {c : Char}
    (cs : List Char) (h : c ≠ p0) :
    pyReplace p0 ps rep (c :: cs) = c :: pyReplace p0 ps rep cs := by
  rw [pyReplace, if_neg]
  intro hpre
  have hp : (p0 :: ps) <+: (c :: cs) := List.isPrefixOf_iff_prefix.mp hpre
  rcases hp with ⟨t, ht⟩
  simp only [List.cons_append, List.cons.injEq] at ht
  exact h ht.1.symm

theorem pyReplace_no_match {p0 : Char} (ps rep : List Char) :
    ∀ (l : List Char), (∀ c ∈ l, c ≠ p0) →
      pyReplace p0 ps rep l = l := by
  intro l
  induction l with
  | nil => intro _; rw [pyReplace]
  | cons c cs ih =>
      intro h
      rw [pyReplace_cons_of_ne ps rep cs (h c (List.mem_cons_self _ _))]
      rw [ih (fun x hx => h x (List.mem_cons_of_mem _ hx))]

theorem pyReplace_append_left {p0 : Char} (ps rep : List Char) :
    ∀ (pre l : List Char), (∀ c ∈ pre, c ≠ p0) →
      pyReplace p0 ps rep (pre ++ l) = pre ++ pyReplace p0 ps rep l := by
  intro pre
  induction pre with
  | nil => intro l _; simp
  | cons c cs ih =>
      intro l h
      rw [List.cons_append,
        pyReplace_cons_of_ne ps rep _ (h c (List.mem_cons_self _ _)),
        ih l (fun x hx => h x (List.mem_cons_of_mem _ hx))]
      simp

theorem isPrefixOf_false_of_mem {x : Char} (ps post : List Char)
    (hx : x ∈ ps) (hpost : ∀ c ∈ post, c ≠ x) :
    ps.isPrefixOf post = false := by
  by_contra h
  have hb : ps.isPrefixOf post = true := by
    cases hb : ps.isPrefixOf post
    · exact absurd hb h
    · rfl
  have hp : ps <+: post := List.isPrefixOf_iff_prefix.mp hb
  exact hpost x (hp.subset hx) rfl

theorem pyReplace_dollar_terminal (ps rep post : List Char)
    (hps : '$' ∈ ps) (hpost : ∀ c ∈ post, c ≠ '$') :
    pyReplace '$' ps rep ('$' :: post) = '$' :: post := by
  rw [pyReplace, if_neg]
  · rw [pyReplace_no_match ps rep post hpost]
  · intro hpre
    have hb : ps.isPrefixOf post = true := by
      simpa using hpre
    rw [isPrefixOf_false_of_mem ps post hps hpost] at hb
    cases hb

theorem formatSub_nil (repId : List Char) (n t b : Int) :
    formatSub repId n t b [] = [] := by
  rw [formatSub]

theorem formatSub_cons_of_ne (repId : List Char) (n t b : Int) {c : Char}
    (cs : List Char) (h : c ≠ '$') :
    formatSub repId n t b (c :: cs) = c :: formatSub repId n t b cs := by
  rw [formatSub, if_neg h]

theorem formatSub_no_dollar (repId : List Char) (n t b : Int) :
    ∀ (l : List Char), (∀ c ∈ l, c ≠ '$') →
      formatSub repId n t b l = l := by
  intro l
  induction l with
  | nil => intro _; rw [formatSub]
  | cons c cs ih =>
      intro h
      rw [formatSub_cons_of_ne repId n t b cs (h c (List.mem_cons_self _ _)),
        ih (fun x hx => h x (List.mem_cons_of_mem _ hx))]

theorem formatSub_append_left (repId : List Char) (n t b : Int) :
    ∀ (pre l : List Char), (∀ c ∈ pre, c ≠ '$') →
      formatSub repId n t b (pre ++ l) = pre ++ formatSub repId n t b l := by
  intro pre
  induction pre with
  | nil => intro l _; simp
  | cons c cs ih =>
      intro l h
      rw [List.cons_append,
        formatSub_cons_of_ne repId n t b _ (h c (List.mem_cons_self _ _)),
        ih l (fun x hx => h x (List.mem_cons_of_mem _ hx))]
      simp

theorem tryFormat_some_dollar_mem {cs : List Char}
    {k : Nat} {name : List Char} {zf : Bool} {digits : List Char}
    (h : tryFormat cs = some (k, name, zf, digits)) : '$' ∈ cs := by
  unfold tryFormat at h
  dsimp only at h
  split at h
  · cases h
  · split at h
    · rename_i r1 heq1
      split at h
      · rename_i f rest heq2
        split at h
        · cases h
          have h1 : '$' ∈ f :: '$' :: rest := List.mem_cons_of_mem _ (List.mem_cons_self _ _)
          rw [← heq2] at h1
          have h2 := List.drop_subset _ _ h1
          have h3 : '$' ∈ r1 := by
            split at h2
            · exact List.drop_subset _ _ h2
            · exact h2
          have h4 : '$' ∈ '%' :: r1 := List.mem_cons_of_mem _ h3
          rw [← heq1] at h4
          exact List.drop_subset _ _ h4
        · cases h
      · cases h
    · cases h

theorem tryFormat_none_of_no_dollar (cs : List Char)
    (h : ∀ c ∈ cs, c ≠ '$') : tryFormat cs = none := by
  cases htf : tryFormat cs with
  | none => rfl
  | some v =>
      obtain ⟨k, name, zf, digits⟩ := v
      exact absurd rfl (h '$' (tryFormat_some_dollar_mem htf))



theorem fillTemplate_number_pad (pre post : List Char)
    (hpreD : ∀ c ∈ pre, c ≠ '$') (hpreN : ∀ c ∈ pre, c ≠ nulChar)
    (hpostD : ∀ c ∈ post, c ≠ '$') (hpostN : ∀ c ∈ post, c ≠ nulChar) :
    fillTemplate (pre ++ "$Number%04d$".data ++ post) "r".data 7 0 1
      = pre ++ "0007".data ++ post := by
  have hne : (pre ++ "$Number%04d$".data ++ post).isEmpty = false := by
    cases pre <;> simp
  have step : ∀ (ps repl : List Char), '$' ∈ ps →
      (ps.isPrefixOf ("Number%04d".data ++ '$' :: post) = false) →
      pyReplace '$' ps repl ("$Number%04d$".data ++ post)
        = "$Number%04d$".data ++ post := by
    intro ps repl hps hpref
    have hsplit : "$Number%04d$".data ++ post
        = '$' :: ("Number%04d".data ++ ('$' :: post)) := rfl
    rw [hsplit, pyReplace, if_neg]
    · rw [pyReplace_append_left _ _ ("Number%04d".data) _ (by decide),
        pyReplace_dollar_terminal _ _ post hps hpostD]
    · rw [show (('$' :: ps).isPrefixOf
          ('$' :: ("Number%04d".data ++ ('$' :: post))))
          = ps.isPrefixOf ("Number%04d".data ++ ('$' :: post)) from rfl, hpref]
      simp
  have e1 : pyReplace '$' ['$'] [nulChar]
      (pre ++ ("$Number%04d$".data ++ post))
      = pre ++ ("$Number%04d$".data ++ post) := by
    rw [pyReplace_append_left _ _ pre _ hpreD, step ['$'] [nulChar] (by decide) rfl]
  have e2 : pyReplace '$' "RepresentationID$".data "r".data
      (pre ++ ("$Number%04d$".data ++ post))
      = pre ++ ("$Number%04d$".data ++ post) := by
    rw [pyReplace_append_left _ _ pre _ hpreD,
      step "RepresentationID$".data "r".data (by decide) rfl]
  have e3 : pyReplace '$' "Number$".data (toString (7 : Int)).data
      (pre ++ ("$Number%04d$".data ++ post))
      = pre ++ ("$Number%04d$".data ++ post) := by
    rw [pyReplace_append_left _ _ pre _ hpreD,
      step "Number$".data (toString (7 : Int)).data (by decide) rfl]
  have e4 : pyReplace '$' "Time$".data (toString (0 : Int)).data
      (pre ++ ("$Number%04d$".data ++ post))
      = pre ++ ("$Number%04d$".data ++ post) := by
    rw [pyReplace_append_left _ _ pre _ hpreD,
      step "Time$".data (toString (0 : Int)).data (by decide) rfl]
  have e5 : pyReplace '$' "Bandwidth$".data (toString (1 : Int)).data
      (pre ++ ("$Number%04d$".data ++ post))
      = pre ++ ("$Number%04d$".data ++ post) := by
    rw [pyReplace_append_left _ _ pre _ hpreD,
      step "Bandwidth$".data (toString (1 : Int)).data (by decide) rfl]
  have htf : tryFormat ("Number%04d$".data ++ post)
      = some (11, "Number".data, true, "4".data) := rfl
  have e6 : formatSub "r".data 7 0 1 (pre ++ ("$Number%04d$".data ++ post))
      = pre ++ ("0007".data ++ post) := by
    rw [formatSub_append_left _ _ _ _ pre _ hpreD]
    rw [show ("$Number%04d$".data ++ post)
        = '$' :: ("Number%04d$".data ++ post) from rfl]
    rw [formatSub, if_pos rfl, htf]
    dsimp only
    rw [show List.drop 11 ("Number%04d$".data ++ post) = post from rfl]
    rw [formatSub_no_dollar _ _ _ _ post hpostD]
    rfl
  have e7 : pyReplace nulChar [] "$".data (pre ++ ("0007".data ++ post))
      = pre ++ ("0007".data ++ post) := by
    rw [pyReplace_no_match]
    intro c hc
    rcases List.mem_append.mp hc with hc | hc
    · exact hpreN c hc
    · rcases List.mem_append.mp hc with hc | hc
      · have hmem : c ∈ ['0', '0', '0', '7'] := hc
        fin_cases hmem <;> decide
      · exact hpostN c hc
  unfold fillTemplate
  rw [hne]
  dsimp only
  rw [List.append_assoc, e1, e2, e3, e4, e5, e6, e7]
  simp [List.append_assoc]

theorem pyReplace_token_skip (ps repl mid post : List Char)
    (hmid : ∀ c ∈ mid, c ≠ '$') (hpost : ∀ c ∈ post, c ≠ '$')
    (hps : '$' ∈ ps)
    (hpref : ps.isPrefixOf (mid ++ ('$' :: post)) = false) :
    pyReplace '$' ps repl ('$' :: (mid ++ ('$' :: post)))
      = '$' :: (mid ++ ('$' :: post)) := by
  rw [pyReplace, if_neg]
  · rw [pyReplace_append_left _ _ mid _ hmid,
      pyReplace_dollar_terminal _ _ post hps hpost]
  · rw [show (('$' :: ps).isPrefixOf ('$' :: (mid ++ ('$' :: post))))
        = ps.isPrefixOf (mid ++ ('$' :: post)) from rfl, hpref]
    simp

theorem fillTemplate_double_dollar (pre post : List Char)
    (hpreD : ∀ c ∈ pre, c ≠ '$') (hpreN : ∀ c ∈ pre, c ≠ nulChar)
    (hpostD : ∀ c ∈ post, c ≠ '$') (hpostN : ∀ c ∈ post, c ≠ nulChar) :
    fillTemplate (pre ++ "$$".data ++ post) "r".data 7 0 1
      = pre ++ "$".data ++ post := by
  have hne : (pre ++ "$$".data ++ post).isEmpty = false := by
    cases pre <;> simp
  have e1 : pyReplace '$' ['$'] [nulChar] (pre ++ ("$$".data ++ post))
      = pre ++ (nulChar :: post) := by
    rw [pyReplace_append_left _ _ pre _ hpreD]
    rw [show ("$$".data ++ post) = '$' :: '$' :: post from rfl]
    rw [pyReplace, if_pos (by simp [List.isPrefixOf_iff_prefix])]
    rw [show (('$' :: post).drop (List.length ['$'])) = post from rfl]
    rw [pyReplace_no_match _ _ post hpostD]
    rfl
  have hnoD : ∀ c ∈ pre ++ (nulChar :: post), c ≠ '$' := by
    intro c hc
    rcases List.mem_append.mp hc with hc | hc
    · exact hpreD c hc
    · rcases List.mem_cons.mp hc with rfl | hc
      · decide
      · exact hpostD c hc
  have e7 : pyReplace nulChar [] "$".data (pre ++ (nulChar :: post))
      = pre ++ ('$' :: post) := by
    rw [pyReplace_append_left _ _ pre _ hpreN]
    rw [pyReplace, if_pos (by simp [List.isPrefixOf_iff_prefix])]
    rw [show (post.drop (List.length ([] : List Char))) = post from rfl]
    rw [pyReplace_no_match _ _ post hpostN]
    rfl
  unfold fillTemplate
  rw [hne]
  dsimp only
  rw [List.append_assoc, e1,
    pyReplace_no_match _ _ _ hnoD,
    pyReplace_no_match _ _ _ hnoD,
    pyReplace_no_match _ _ _ hnoD,
    pyReplace_no_match _ _ _ hnoD,
    formatSub_no_dollar _ _ _ _ _ hnoD,
    e7]
  simp [List.append_assoc]

theorem fillTemplate_unknown_bare (pre post : List Char)
    (hpreD : ∀ c ∈ pre, c ≠ '$') (hpreN : ∀ c ∈ pre, c ≠ nulChar)
    (hpostD : ∀ c ∈ post, c ≠ '$') (hpostN : ∀ c ∈ post, c ≠ nulChar) :
    fillTemplate (pre ++ "$Foo$".data ++ post) "r".data 7 0 1
      = pre ++ "$Foo$".data ++ post := by
  have hne : (pre ++ "$Foo$".data ++ post).isEmpty = false := by
    cases pre <;> simp
  have hsplit : "$Foo$".data ++ post = '$' :: ("Foo".data ++ ('$' :: post)) := rfl
  have eskip : ∀ (ps repl : List Char), '$' ∈ ps →
      ps.isPrefixOf ("Foo".data ++ ('$' :: post)) = false →
      pyReplace '$' ps repl (pre ++ ("$Foo$".data ++ post))
        = pre ++ ("$Foo$".data ++ post) := by
    intro ps repl hps hpref
    rw [pyReplace_append_left _ _ pre _ hpreD, hsplit,
      pyReplace_token_skip ps repl "Foo".data post (by decide) hpostD hps hpref]
  have e6 : formatSub "r".data 7 0 1 (pre ++ ("$Foo$".data ++ post))
      = pre ++ ("$Foo$".data ++ post) := by
    rw [formatSub_append_left _ _ _ _ pre _ hpreD, hsplit]
    rw [formatSub, if_pos rfl,
      show tryFormat ("Foo".data ++ ('$' :: post)) = none from rfl]
    dsimp only
    rw [formatSub_append_left _ _ _ _ "Foo".data _ (by decide)]
    rw [formatSub, if_pos rfl,
      tryFormat_none_of_no_dollar post hpostD]
    dsimp only
    rw [formatSub_no_dollar _ _ _ _ post hpostD]
  have e7 : pyReplace nulChar [] "$".data (pre ++ ("$Foo$".data ++ post))
      = pre ++ ("$Foo$".data ++ post) := by
    rw [pyReplace_no_match]
    intro c hc
    rcases List.mem_append.mp hc with hc | hc
    · exact hpreN c hc
    · rcases List.mem_append.mp hc with hc | hc
      · have hmem : c ∈ ['$', 'F', 'o', 'o', '$'] := hc
        fin_cases hmem <;> decide
      · exact hpostN c hc
  unfold fillTemplate
  rw [hne]
  dsimp only
  rw [List.append_assoc,
    eskip ['$'] [nulChar] (by decide) rfl,
    eskip "RepresentationID$".data "r".data (by decide) rfl,
    eskip "Number$".data (toString (7 : Int)).data (by decide) rfl,
    eskip "Time$".data (toString (0 : Int)).data (by decide) rfl,
    eskip "Bandwidth$".data (toString (1 : Int)).data (by decide) rfl,
    e6, e7]
  simp [List.append_assoc]

theorem fillTemplate_unknown_fmt (pre post : List Char)
    (hpreD : ∀ c ∈ pre, c ≠ '$') (hpreN : ∀ c ∈ pre, c ≠ nulChar)
    (hpostD : ∀ c ∈ post, c ≠ '$') (hpostN : ∀ c ∈ post, c ≠ nulChar) :
    fillTemplate (pre ++ "$Foo%02d$".data ++ post) "r".data 7 0 1
      = pre ++ "$Foo%02d$".data ++ post := by
  have hne : (pre ++ "$Foo%02d$".data ++ post).isEmpty = false := by
    cases pre <;> simp
  have hsplit : "$Foo%02d$".data ++ post
      = '$' :: ("Foo%02d".data ++ ('$' :: post)) := rfl
  have eskip : ∀ (ps repl : List Char), '$' ∈ ps →
      ps.isPrefixOf ("Foo%02d".data ++ ('$' :: post)) = false →
      pyReplace '$' ps repl (pre ++ ("$Foo%02d$".data ++ post))
        = pre ++ ("$Foo%02d$".data ++ post) := by
    intro ps repl hps hpref
    rw [pyReplace_append_left _ _ pre _ hpreD, hsplit,
      pyReplace_token_skip ps repl "Foo%02d".data post (by decide) hpostD hps hpref]
  have htf : tryFormat ("Foo%02d$".data ++ post)
      = some (8, "Foo".data, true, "2".data) := rfl
  have e6 : formatSub "r".data 7 0 1 (pre ++ ("$Foo%02d$".data ++ post))
      = pre ++ ("$Foo%02d$".data ++ post) := by
    rw [formatSub_append_left _ _ _ _ pre _ hpreD]
    rw [show ("$Foo%02d$".data ++ post)
        = '$' :: ("Foo%02d$".data ++ post) from rfl]
    rw [formatSub, if_pos rfl, htf]
    dsimp only
    rw [show List.drop 8 ("Foo%02d$".data ++ post) = post from rfl]
    rw [formatSub_no_dollar _ _ _ _ post hpostD]
    rfl
  have e7 : pyReplace nulChar [] "$".data (pre ++ ("$Foo%02d$".data ++ post))
      = pre ++ ("$Foo%02d$".data ++ post) := by
    rw [pyReplace_no_match]
    intro c hc
    rcases List.mem_append.mp hc with hc | hc
    · exact hpreN c hc
    · rcases List.mem_append.mp hc with hc | hc
      · have hmem : c ∈ ['$', 'F', 'o', 'o', '%', '0', '2', 'd', '$'] := hc
        fin_cases hmem <;> decide
      · exact hpostN c hc
  unfold fillTemplate
  rw [hne]
  dsimp only
  rw [List.append_assoc,
    eskip ['$'] [nulChar] (by decide) rfl,
    eskip "RepresentationID$".data "r".data (by decide) rfl,
    eskip "Number$".data (toString (7 : Int)).data (by decide) rfl,
    eskip "Time$".data (toString (0 : Int)).data (by decide) rfl,
    eskip "Bandwidth$".data (toString (1 : Int)).data (by decide) rfl,
    e6, e7]
  simp [List.append_assoc]

theorem fillTemplate_escape_survives (pre post : List Char)
    (hpreD : ∀ c ∈ pre, c ≠ '$') (hpreN : ∀ c ∈ pre, c ≠ nulChar)
    (hpostD : ∀ c ∈ post, c ≠ '$') (hpostN : ∀ c ∈ post, c ≠ nulChar) :
    fillTemplate (pre ++ "$$Number$".data ++ post) "r".data 7 0 1
      = pre ++ "$Number$".data ++ post := by
  have hne : (pre ++ "$$Number$".data ++ post).isEmpty = false := by
    cases pre <;> simp
  have e1 : pyReplace '$' ['$'] [nulChar] (pre ++ ("$$Number$".data ++ post))
      = pre ++ (nulChar :: ("Number".data ++ ('$' :: post))) := by
    rw [pyReplace_append_left _ _ pre _ hpreD]
    rw [show ("$$Number$".data ++ post)
        = '$' :: '$' :: ("Number".data ++ ('$' :: post)) from rfl]
    rw [pyReplace, if_pos (by simp [List.isPrefixOf_iff_prefix])]
    rw [show (('$' :: ("Number".data ++ ('$' :: post))).drop (List.length ['$']))
        = "Number".data ++ ('$' :: post) from rfl]
    rw [pyReplace_append_left _ _ "Number".data _ (by decide),
      pyReplace_dollar_terminal _ _ post (by decide) hpostD]
    rfl
  have hmidD : ∀ c ∈ nulChar :: "Number".data, c ≠ '$' := by
    intro c hc
    have hmem : c ∈ [nulChar, 'N', 'u', 'm', 'b', 'e', 'r'] := hc
    fin_cases hmem <;> decide
  have hall : ∀ c ∈ pre ++ (nulChar :: "Number".data), c ≠ '$' := by
    intro c hc
    rcases List.mem_append.mp hc with hc | hc
    · exact hpreD c hc
    · exact hmidD c hc
  have eskip : ∀ (ps repl : List Char), '$' ∈ ps →
      pyReplace '$' ps repl (pre ++ (nulChar :: ("Number".data ++ ('$' :: post))))
        = pre ++ (nulChar :: ("Number".data ++ ('$' :: post))) := by
    intro ps repl hps
    rw [show (pre ++ (nulChar :: ("Number".data ++ ('$' :: post))))
        = (pre ++ (nulChar :: "Number".data)) ++ ('$' :: post) from by simp]
    rw [pyReplace_append_left _ _ (pre ++ (nulChar :: "Number".data)) _ hall]
    rw [pyReplace_dollar_terminal _ _ post hps hpostD]
  have e6 : formatSub "r".data 7 0 1
      (pre ++ (nulChar :: ("Number".data ++ ('$' :: post))))
      = pre ++ (nulChar :: ("Number".data ++ ('$' :: post))) := by
    rw [show (pre ++ (nulChar :: ("Number".data ++ ('$' :: post))))
        = (pre ++ (nulChar :: "Number".data)) ++ ('$' :: post) from by simp]
    rw [formatSub_append_left _ _ _ _ (pre ++ (nulChar :: "Number".data)) _ hall]
    rw [formatSub, if_pos rfl, tryFormat_none_of_no_dollar post hpostD]
    dsimp only
    rw [formatSub_no_dollar _ _ _ _ post hpostD]
  have e7 : pyReplace nulChar [] "$".data
      (pre ++ (nulChar :: ("Number".data ++ ('$' :: post))))
      = pre ++ ('$' :: ("Number".data ++ ('$' :: post))) := by
    rw [pyReplace_append_left _ _ pre _ hpreN]
    rw [pyReplace, if_pos (by simp [List.isPrefixOf_iff_prefix])]
    rw [show (("Number".data ++ ('$' :: post)).drop
        (List.length ([] : List Char))) = "Number".data ++ ('$' :: post) from rfl]
    rw [pyReplace_no_match]
    · rfl
    · intro c hc
      rcases List.mem_append.mp hc with hc | hc
      · have hmem : c ∈ ['N', 'u', 'm', 'b', 'e', 'r'] := hc
        fin_cases hmem <;> decide
      · rcases List.mem_cons.mp hc with rfl | hc
        · decide
        · exact hpostN c hc
  unfold fillTemplate
  rw [hne]
  dsimp only
  rw [List.append_assoc, e1,
    eskip "RepresentationID$".data "r".data (by decide),
    eskip "Number$".data (toString (7 : Int)).data (by decide),
    eskip "Time$".data (toString (0 : Int)).data (by decide),
    eskip "Bandwidth$".data (toString (1 : Int)).data (by decide),
    e6, e7]
  simp [List.append_assoc]

/-- C7: filling a template with `rep_id="r"`, `number=7`, `time=0`,
`bandwidth=1` replaces `$Number%04d$` by the zero-padded literal `0007`;
every literal `$$` becomes a single `$` that survives the other
substitutions (shown also with `$$Number$`, whose restored `$` does not
re-trigger the `$Number$` substitution); and tokens naming unknown
variables, bare or with a format spec, appear verbatim in the output.
The context chunks range over arbitrary `$`- and sentinel-free text. -/
theorem template_fill_roundtrip (pre post : List Char)
    (hpre : ∀ c ∈ pre, c ≠ '$' ∧ c ≠ nulChar)
    (hpost : ∀ c ∈ post, c ≠ '$' ∧ c ≠ nulChar) :
    fillTemplate (pre ++ "$Number%04d$".data ++ post) "r".data 7 0 1
        = pre ++ "0007".data ++ post ∧
    fillTemplate (pre ++ "$$".data ++ post) "r".data 7 0 1
        = pre ++ "$".data ++ post ∧
    fillTemplate (pre ++ "$$Number$".data ++ post) "r".data 7 0 1
        = pre ++ "$Number$".data ++ post ∧
    fillTemplate (pre ++ "$Foo$".data ++ post) "r".data 7 0 1
        = pre ++ "$Foo$".data ++ post ∧
    fillTemplate (pre ++ "$Foo%02d$".data ++ post) "r".data 7 0 1
        = pre ++ "$Foo%02d$".data ++ post := by
  have hpreD : ∀ c ∈ pre, c ≠ '$' := fun c hc => (hpre c hc).1
  have hpreN : ∀ c ∈ pre, c ≠ nulChar := fun c hc => (hpre c hc).2
  have hpostD : ∀ c ∈ post, c ≠ '$' := fun c hc => (hpost c hc).1
  have hpostN : ∀ c ∈ post, c ≠ nulChar := fun c hc => (hpost c hc).2
  exact ⟨fillTemplate_number_pad pre post hpreD hpreN hpostD hpostN,
    fillTemplate_double_dollar pre post hpreD hpreN hpostD hpostN,
    fillTemplate_escape_survives pre post hpreD hpreN hpostD hpostN,
    fillTemplate_unknown_bare pre post hpreD hpreN hpostD hpostN,
    fillTemplate_unknown_fmt pre post hpreD hpreN hpostD hpostN⟩

/-- Witness for `template_fill_roundtrip` on the template
`seg_$Number%04d$.m4s`. -/
theorem template_fill_roundtrip_witness :
    fillTemplate ("seg_".data ++ "$Number%04d$".data ++ ".m4s".data)
        "r".data 7 0 1
      = "seg_".data ++ "0007".data ++ ".m4s".data :=
  (template_fill_roundtrip "seg_".data ".m4s".data (by decide) (by decide)).1

theorem emitLoop_spec (resolveUrl : String → String → String)
    (media repId : String) (bandwidth : Int) (baseUrl : String)
    (ts pto du : Int) :
    ∀ (k : Nat) (n ct : Int),
      (∀ i : Nat, i < k →
        fillTemplateS media repId (n + i) (ct + i * du - pto) bandwidth ≠ "") →
      emitLoop resolveUrl media repId bandwidth baseUrl ts pto du k n ct
        = (n + k, ct + k * du,
          (List.range k).map (fun i =>
            ⟨resolveUrl baseUrl
                (fillTemplateS media repId (n + i) (ct + i * du - pto) bandwidth),
              (du : Rat) / (ts : Rat), n + i⟩)) := by
  intro k
  induction k with
  | zero =>
      intro n ct _
      simp [emitLoop]
  | succ k ih =>
      intro n ct hfill
      have h0 : ¬ fillTemplateS media repId n (ct - pto) bandwidth = "" := by
        have h := hfill 0 (Nat.succ_pos k)
        simpa using h
      have hshift : ∀ i : Nat, i < k →
          fillTemplateS media repId (n + 1 + i) (ct + du + i * du - pto) bandwidth
            ≠ "" := by
        intro i hi
        have harg1 : (n + 1) + (i : Int) = n + ((i + 1 : Nat) : Int) := by
          push_cast
          ring
        have harg2 : (ct + du) + (i : Int) * du = ct + ((i + 1 : Nat) : Int) * du := by
          push_cast
          ring
        rw [harg1, harg2]
        exact hfill (i + 1) (by omega)
      rw [emitLoop]
      dsimp only
      rw [if_neg h0, ih (n + 1) (ct + du) hshift]
      simp only [Prod.mk.injEq]
      refine ⟨by push_cast; ring, by push_cast; ring, ?_⟩
      rw [List.range_succ_eq_map, List.map_cons, List.map_map]
      congr 1
      · norm_num
      · refine List.map_congr_left ?_
        intro i _
        simp only [Function.comp]
        rw [show n + 1 + (i : Int) = n + ((Nat.succ i : Nat) : Int) from by
            push_cast; ring,
          show ct + du + (i : Int) * du = ct + ((Nat.succ i : Nat) : Int) * du from by
            push_cast; ring]

theorem parseTimelineAux_append (resolveUrl : String → String → String)
    (tmpl : RTemplate) (repId : String) (bandwidth : Int) (baseUrl : String)
    (isLive : Bool) :
    ∀ (l1 l2 : List SElem) (st : TLState),
      parseTimelineAux resolveUrl tmpl repId bandwidth baseUrl isLive st (l1 ++ l2)
        = ((parseTimelineAux resolveUrl tmpl repId bandwidth baseUrl isLive
              (parseTimelineAux resolveUrl tmpl repId bandwidth baseUrl isLive
                st l1).1 l2).1,
          (parseTimelineAux resolveUrl tmpl repId bandwidth baseUrl isLive
              st l1).2
            ++ (parseTimelineAux resolveUrl tmpl repId bandwidth baseUrl isLive
              (parseTimelineAux resolveUrl tmpl repId bandwidth baseUrl isLive
                st l1).1 l2).2) := by
  intro l1
  induction l1 with
  | nil =>
      intro l2 st
      simp [parseTimelineAux]
  | cons s rest ih =>
      intro l2 st
      rw [List.cons_append, parseTimelineAux, ih]
      rw [show parseTimelineAux resolveUrl tmpl repId bandwidth baseUrl isLive
          st (s :: rest)
          = ((parseTimelineAux resolveUrl tmpl repId bandwidth baseUrl isLive
              (processS resolveUrl tmpl repId bandwidth baseUrl isLive st s).1
              rest).1,
            (processS resolveUrl tmpl repId bandwidth baseUrl isLive st s).2
              ++ (parseTimelineAux resolveUrl tmpl repId bandwidth baseUrl isLive
                (processS resolveUrl tmpl repId bandwidth baseUrl isLive st s).1
                rest).2) from by rw [parseTimelineAux]]
      simp [List.append_assoc]

/-- C6: an `<S t=T d=D r=R>` element with `D > 0` and `R ≥ 0`, reached
with loop state `st`, emits exactly `R + 1` segments with consecutive
numbers continuing from `st.number`; the running time is reset to `T` and
advances by `D` units per segment (visible in each segment's filled media
URL), each emitted segment's duration is `D / timescale`, and the
expansion of a timeline is the concatenation of its elements' emissions
with the state threaded left to right. -/
theorem timeline_expansion (resolveUrl : String → String → String)
    (tmpl : RTemplate) (repId : String) (bandwidth : Int) (baseUrl : String)
    (isLive : Bool) (st : TLState) (T D R : Int) (hD : 0 < D) (hR : 0 ≤ R)
    (hfill : ∀ i : Nat, (i : Int) ≤ R →
      fillTemplateS (tmpl.media.getD "") repId (st.number + i)
        (T + i * D - tmpl.presentationTimeOffset) bandwidth ≠ "") :
    processS resolveUrl tmpl repId bandwidth baseUrl isLive st
        ⟨some T, some D, some R⟩
      = (⟨st.number + (R + 1), T + (R + 1) * D, some D⟩,
        (List.range (R.toNat + 1)).map (fun i =>
          ⟨resolveUrl baseUrl
              (fillTemplateS (tmpl.media.getD "") repId (st.number + i)
                (T + i * D - tmpl.presentationTimeOffset) bandwidth),
            (D : Rat) / ((if tmpl.timescale = 0 then 1 else tmpl.timescale : Int) : Rat),
            st.number + i⟩)) ∧
    (processS resolveUrl tmpl repId bandwidth baseUrl isLive st
        ⟨some T, some D, some R⟩).2.length = R.toNat + 1 ∧
    (∀ (l1 l2 : List SElem) (st0 : TLState),
      parseTimelineAux resolveUrl tmpl repId bandwidth baseUrl isLive st0 (l1 ++ l2)
        = ((parseTimelineAux resolveUrl tmpl repId bandwidth baseUrl isLive
              (parseTimelineAux resolveUrl tmpl repId bandwidth baseUrl isLive
                st0 l1).1 l2).1,
          (parseTimelineAux resolveUrl tmpl repId bandwidth baseUrl isLive
              st0 l1).2
            ++ (parseTimelineAux resolveUrl tmpl repId bandwidth baseUrl isLive
              (parseTimelineAux resolveUrl tmpl repId bandwidth baseUrl isLive
                st0 l1).1 l2).2)) := by
  have hfill' : ∀ i : Nat, i < R.toNat + 1 →
      fillTemplateS (tmpl.media.getD "") repId (st.number + i)
        (T + i * D - tmpl.presentationTimeOffset) bandwidth ≠ "" := by
    intro i hi
    exact hfill i (by omega)
  have hspec := emitLoop_spec resolveUrl (tmpl.media.getD "") repId bandwidth
    baseUrl (if tmpl.timescale = 0 then 1 else tmpl.timescale)
    tmpl.presentationTimeOffset D (R.toNat + 1) st.number T hfill'
  have hproc : processS resolveUrl tmpl repId bandwidth baseUrl isLive st
      ⟨some T, some D, some R⟩
      = (⟨st.number + (R.toNat + 1 : Nat), T + (R.toNat + 1 : Nat) * D, some D⟩,
        (List.range (R.toNat + 1)).map (fun i =>
          ⟨resolveUrl baseUrl
              (fillTemplateS (tmpl.media.getD "") repId (st.number + i)
                (T + i * D - tmpl.presentationTimeOffset) bandwidth),
            (D : Rat) / ((if tmpl.timescale = 0 then 1 else tmpl.timescale : Int) : Rat),
            st.number + i⟩)) := by
    unfold processS
    dsimp only
    rw [if_pos (by omega : D > 0), if_neg (by omega : ¬ D ≤ 0),
      if_neg (by omega : ¬ R < 0), hspec]
  have hcast : ((R.toNat + 1 : Nat) : Int) = R + 1 := by
    rw [Nat.cast_add, Int.toNat_of_nonneg hR]
    rfl
  refine ⟨?_, ?_, parseTimelineAux_append resolveUrl tmpl repId bandwidth
    baseUrl isLive⟩
  · rw [hproc, hcast]
  · rw [hproc]
    simp

/-- Witness for `timeline_expansion`: `<S t=0 d=48000 r=2>` with
`timescale=48000` emits three segments. -/
theorem timeline_expansion_witness :
    (processS (fun b r => b ++ r)
        ⟨none, some "seg.m4s", 48000, none, 1, 0, none⟩
        "r" 0 "http://x/" true ⟨1, 0, none⟩
        ⟨some 0, some 48000, some 2⟩).2.length
      = (2 : Int).toNat + 1 :=
  (timeline_expansion (fun b r => b ++ r)
    ⟨none, some "seg.m4s", 48000, none, 1, 0, none⟩
    "r" 0 "http://x/" true ⟨1, 0, none⟩ 0 48000 2 (by norm_num) (by norm_num)
    (by
      intro i hi
      have hi' : i ≤ 2 := by exact_mod_cast hi
      interval_cases i <;>
        simp [fillTemplateS, fillTemplate, pyReplace, formatSub, tryFormat,
          nulChar])).2.1

theorem pyMax_foldl_spec :
    ∀ (rest : List SessRep) (best : SessRep),
      (rest.foldl
          (fun best r' => if r'.bandwidth > best.bandwidth then r' else best)
          best ∈ best :: rest) ∧
      (∀ x ∈ best :: rest,
        x.bandwidth ≤ (rest.foldl
          (fun best r' => if r'.bandwidth > best.bandwidth then r' else best)
          best).bandwidth) := by
  intro rest
  induction rest with
  | nil =>
      intro best
      refine ⟨List.mem_cons_self _ _, ?_⟩
      intro x hx
      rcases List.mem_cons.mp hx with rfl | hx
      · exact le_refl _
      · cases hx
  | cons r' rest' ih =>
      intro best
      rw [List.foldl_cons]
      obtain ⟨hmem, hbd⟩ := ih (if r'.bandwidth > best.bandwidth then r' else best)
      constructor
      · rcases List.mem_cons.mp hmem with heq | hmem
        · rw [heq]
          by_cases hgt : r'.bandwidth > best.bandwidth
          · rw [if_pos hgt]
            exact List.mem_cons_of_mem _ (List.mem_cons_self _ _)
          · rw [if_neg hgt]
            exact List.mem_cons_self _ _
        · exact List.mem_cons_of_mem _ (List.mem_cons_of_mem _ hmem)
      · intro x hx
        rcases List.mem_cons.mp hx with rfl | hx
        · refine le_trans ?_ (hbd _ (List.mem_cons_self _ _))
          by_cases hgt : r'.bandwidth > x.bandwidth
          · rw [if_pos hgt]
            omega
          · rw [if_neg hgt]
        · rcases List.mem_cons.mp hx with rfl | hx
          · refine le_trans ?_ (hbd _ (List.mem_cons_self _ _))
            by_cases hgt : x.bandwidth > best.bandwidth
            · rw [if_pos hgt]
            · rw [if_neg hgt]
              omega
          · exact hbd x (List.mem_cons_of_mem _ hx)

theorem pyMaxByBandwidth_spec {reps : List SessRep} {r : SessRep}
    (h : pyMaxByBandwidth reps = some r) :
    r ∈ reps ∧ ∀ x ∈ reps, x.bandwidth ≤ r.bandwidth := by
  cases reps with
  | nil => cases h
  | cons r0 rest =>
      unfold pyMaxByBandwidth at h
      cases h
      exact pyMax_foldl_spec rest r0

theorem find?_first_match {p : SessRep → Bool} :
    ∀ (pre : List SessRep) (r : SessRep) (post : List SessRep),
      (∀ x ∈ pre, ¬ p x = true) → p r = true →
      (pre ++ r :: post).find? p = some r := by
  intro pre
  induction pre with
  | nil =>
      intro r post _ hp
      rw [List.nil_append]
      exact List.find?_cons_of_pos _ hp
  | cons x pre' ih =>
      intro r post hpre hp
      rw [List.cons_append,
        List.find?_cons_of_neg _ (by simpa using hpre x (List.mem_cons_self _ _)),
        ih r post (fun y hy => hpre y (List.mem_cons_of_mem _ hy)) hp]

/-- C8 counterexample: when `representation_id` matches an audio
representation, `_select_representations` still selects the
highest-bandwidth audio representation; audio selection is not skipped. -/
theorem select_reps_id_match_audio_still_selected :
    selectRepresentations (some "a1")
        [⟨"a1", 100, false, true⟩, ⟨"a2", 200, false, true⟩]
      = (some ⟨"a1", 100, false, true⟩, some ⟨"a2", 200, false, true⟩) := by
  rfl

/-- C8 amended: the ID match takes the first representation with matching
id, regardless of its track type, as the video candidate; the
highest-bandwidth audio representation is always selected as the audio
track, independently of the ID match, even when the matched
representation is itself an audio track. -/
theorem select_representations_spec (rid : String) (hrid : rid ≠ "")
    (reps : List SessRep) :
    (∀ pre r post, reps = pre ++ r :: post → (∀ x ∈ pre, x.id ≠ rid) →
      r.id = rid → (selectRepresentations (some rid) reps).1 = some r) ∧
    (∀ r, (selectRepresentations (some rid) reps).2 = some r →
      r.isAudio = true ∧ r ∈ reps ∧
      ∀ x ∈ reps, x.isAudio = true → x.bandwidth ≤ r.bandwidth) ∧
    (selectRepresentations (some rid) reps).2
      = (selectRepresentations none reps).2 := by
  refine ⟨?_, ?_, rfl⟩
  · intro pre r post hsplit hpre hr
    have hshow : (selectRepresentations (some rid) reps).1
        = reps.find? (fun x => x.id == rid) := by
      unfold selectRepresentations
      dsimp only
      rw [if_pos (by simp [pyTruthyStr, hrid])]
      rfl
    rw [hshow, hsplit]
    exact find?_first_match pre r post
      (by intro x hx; simp [hpre x hx]) (by simp [hr])
  · intro r hraudio
    have hsel : pyMaxByBandwidth (reps.filter (fun x => x.isAudio)) = some r :=
      hraudio
    obtain ⟨hmem, hbd⟩ := pyMaxByBandwidth_spec hsel
    refine ⟨(List.mem_filter.mp hmem).2, (List.mem_filter.mp hmem).1, ?_⟩
    intro x hx haud
    exact hbd x (List.mem_filter.mpr ⟨hx, haud⟩)

/-- Witness for `select_representations_spec`: a configured id matching
the second representation selects it as the video candidate. -/
theorem select_representations_spec_witness :
    (selectRepresentations (some "a1")
        [⟨"v", 5, true, false⟩, ⟨"a1", 1, false, true⟩]).1
      = some ⟨"a1", 1, false, true⟩ :=
  (select_representations_spec "a1" (by decide)
      [⟨"v", 5, true, false⟩, ⟨"a1", 1, false, true⟩]).1
    [⟨"v", 5, true, false⟩] ⟨"a1", 1, false, true⟩ [] rfl (by decide) rfl

theorem processRep_some_nonempty {resolveUrl : String → String → String}
    {doc : MpdDoc} {period : PeriodElem} {a : AdaptationSetElem}
    {isLive : Bool} {mediaDuration : Option Rat} {adaptationBase : String}
    {rep : RepElem} {r : DashRepresentation}
    (h : processRep resolveUrl doc period a isLive mediaDuration
      adaptationBase rep = some r) :
    r.initUrl ≠ "" ∧ r.segments ≠ [] := by
  unfold processRep at h
  split at h
  · cases h
  · dsimp only at h
    split at h
    · cases h
    · split at h
      · cases h
      · split at h
        · cases h
        · rename_i hne
          cases h
          push_neg at hne
          exact ⟨hne.1, hne.2⟩

/-- C9: every representation in a parsed manifest has a non-empty init
URL and a non-empty segment list; a representation whose addressing
resolves to an empty init URL or to zero segments is silently omitted by
the (total, error-free) parse rather than returned. -/
theorem parse_reps_have_init_and_segments
    (resolveUrl : String → String → String) (doc : MpdDoc) (mpdUrl : String) :
    (∀ rep ∈ (parseMpd resolveUrl doc mpdUrl).representations,
      rep.initUrl ≠ "" ∧ rep.segments ≠ []) ∧
    (∀ (period : PeriodElem) (a : AdaptationSetElem) (isLive : Bool)
        (mediaDuration : Option Rat) (adaptationBase : String) (rep : RepElem)
        (addr : String × List DashSegment),
      rep.id ≠ "" →
      repAddressing resolveUrl doc period a rep
          (applyBaseUrl resolveUrl adaptationBase rep.baseURL)
          (safeIntAttr rep.bandwidth 0)
          (pyOrRat period.duration mediaDuration) isLive = some addr →
      (addr.1 = "" ∨ addr.2 = []) →
      processRep resolveUrl doc period a isLive mediaDuration
        adaptationBase rep = none) := by
  constructor
  · intro rep hmem
    unfold parseMpd at hmem
    dsimp only at hmem
    rw [List.mem_flatMap] at hmem
    obtain ⟨period, -, hmem⟩ := hmem
    rw [List.mem_flatMap] at hmem
    obtain ⟨a, -, hmem⟩ := hmem
    split at hmem
    · cases hmem
    · rw [List.mem_filterMap] at hmem
      obtain ⟨relem, -, hsome⟩ := hmem
      exact processRep_some_nonempty hsome
  · intro period a isLive mediaDuration adaptationBase rep addr hid haddr hempty
    unfold processRep
    rw [if_neg (by simpa using hid)]
    dsimp only
    split
    · rfl
    · rw [haddr]
      dsimp only
      rw [if_pos hempty]

/-- Witness for `parse_reps_have_init_and_segments`: a one-period MPD
with a `SegmentList`-addressed video representation. -/
theorem parse_reps_have_init_and_segments_witness :
    (⟨"v1", 0, "avc1", "video/mp4", none, none, "init.mp4",
        [⟨"seg1.m4s", 0, 4⟩], true, false, none⟩ : DashRepresentation).initUrl
      ≠ "" ∧
    (⟨"v1", 0, "avc1", "video/mp4", none, none, "init.mp4",
        [⟨"seg1.m4s", 0, 4⟩], true, false, none⟩ : DashRepresentation).segments
      ≠ [] :=
  (parse_reps_have_init_and_segments (fun _ r => r)
    ⟨none, none, none, none, none, none, none,
      [⟨none, none, none, none, none,
        [⟨some "video", some "video/mp4", none, none, none, [],
          none, none, none,
          [⟨"v1", none, none, some "avc1", none, none, none, none, none, [],
            none,
            some ⟨some "init.mp4", none, none, some "4", [⟨some "seg1.m4s", none⟩]⟩,
            none⟩]⟩]⟩]⟩
    "http://h/s.mpd").1
    ⟨"v1", 0, "avc1", "video/mp4", none, none, "init.mp4",
      [⟨"seg1.m4s", 0, 4⟩], true, false, none⟩
    (by decide)

end Dash2hls
